import Mathlib

/-!
Verification development for the SPG_validator repository.

The Python source works on IEEE floats; following the usual idealization for
geometric code, numbers are modelled as exact real numbers `ℝ` and
`math.hypot` as `Real.sqrt (dx^2 + dy^2)`.  Python exceptions
(`IndexError` on `xs[0]` / `xs[-1]` of an empty list, `ZeroDivisionError`
on float division by zero) are modelled by `Option`: a function returns
`none` exactly when the Python code raises.
-/

namespace SPG

/-- A point of the local planar frame: `(x, y)` in nautical miles. -/
abbrev Pt : Type := ℝ × ℝ

/-- Model of `math.hypot dx dy`. -/
noncomputable def rhypot (dx dy : ℝ) : ℝ := Real.sqrt (dx ^ 2 + dy ^ 2)

/-! ### geo_route_calculator.py -/

/-- The tail of the Python `cumdist` list (`cumdist[1:]`): running cumulative
arc length, starting from accumulated value `c` at previous point `p`. -/
noncomputable def cumFrom (c : ℝ) (p : Pt) : List Pt → List ℝ
  | [] => []
  | q :: rest =>
      (c + rhypot (q.1 - p.1) (q.2 - p.2)) ::
        cumFrom (c + rhypot (q.1 - p.1) (q.2 - p.2)) q rest

/-- Lengths of the consecutive segments of a polyline. -/
noncomputable def segLens : List Pt → List ℝ
  | p :: q :: rest => rhypot (q.1 - p.1) (q.2 - p.2) :: segLens (q :: rest)
  | _ => []

/-- Total arc length of a polyline (`sum(math.hypot(...) for i in range(len-1))`). -/
noncomputable def polyLength (pts : List Pt) : ℝ := (segLens pts).sum

/-- The search loop of `interpolate_along_route`: walks point list and the
matching `cumdist[1:]` tail, carrying `cumdist[i-1]` and point `i-1`.
Returns `none` for Python's `ZeroDivisionError` when the bracketing
segment has `cumdist[i] - cumdist[i-1] == 0`.  The `some lastP` fallback
is the trailing `return xs[-1], ys[-1]` of the Python loop. -/
noncomputable def interpSearch (lastP : Pt) (desired : ℝ) :
    ℝ → Pt → List Pt → List ℝ → Option Pt
  | _, _, [], _ => some lastP
  | _, _, _ :: _, [] => some lastP
  | prevC, prevP, q :: rest, c :: cs =>
      if c ≥ desired then
        if c - prevC = 0 then none
        else
          some (prevP.1 + (desired - prevC) / (c - prevC) * (q.1 - prevP.1),
                prevP.2 + (desired - prevC) / (c - prevC) * (q.2 - prevP.2))
      else interpSearch lastP desired c q rest cs

/-- `GeoRouteCalculator.interpolate_along_route` (xs and ys zipped into one
point list; every caller passes equal-length xs/ys).  `none` models an
exception: `xs[0]` on the empty list, or division by zero in the ratio. -/
noncomputable def interpolate_along_route : List Pt → ℝ → Option Pt
  | [], _ => none
  | [p], _ => some p
  | p :: q :: rest, desired =>
      let cum := cumFrom 0 p (q :: rest)
      if desired ≥ cum.getLastD 0 then some ((p :: q :: rest).getLastD p)
      else interpSearch ((p :: q :: rest).getLastD p) desired 0 p (q :: rest) cum

/-- The clamped projection parameter `t = max(0, min(1, (d·seg)/seg_len**2))`
of `project_point_onto_polyline` for the segment from `p` to `q`. -/
noncomputable def projT (px py : ℝ) (p q : Pt) : ℝ :=
  max 0 (min 1 (((px - p.1) * (q.1 - p.1) + (py - p.2) * (q.2 - p.2)) /
      rhypot (q.1 - p.1) (q.2 - p.2) ^ 2))

/-- Distance from `(px, py)` to its clamped projection onto the segment
from `p` to `q` (the `dist` of the Python loop body). -/
noncomputable def projDist (px py : ℝ) (p q : Pt) : ℝ :=
  rhypot (px - (p.1 + projT px py p q * (q.1 - p.1)))
    (py - (p.2 + projT px py p q * (q.2 - p.2)))

/-- The loop of `project_point_onto_polyline`: carries `cumdist[i-1]` in `c`,
previous point `p`, the best cumulative position so far and the best
distance so far (`none` models the initial `float('inf')`). -/
noncomputable def projBest (px py : ℝ) :
    ℝ → Pt → ℝ → Option ℝ → List Pt → ℝ
  | _, _, bestAlong, _, [] => bestAlong
  | c, p, bestAlong, bestDist, q :: rest =>
      if rhypot (q.1 - p.1) (q.2 - p.2) = 0 then
        projBest px py (c + rhypot (q.1 - p.1) (q.2 - p.2)) q bestAlong bestDist rest
      else
        match bestDist with
        | none =>
            projBest px py (c + rhypot (q.1 - p.1) (q.2 - p.2)) q
              (c + projT px py p q * rhypot (q.1 - p.1) (q.2 - p.2))
              (some (projDist px py p q)) rest
        | some b =>
            if projDist px py p q < b then
              projBest px py (c + rhypot (q.1 - p.1) (q.2 - p.2)) q
                (c + projT px py p q * rhypot (q.1 - p.1) (q.2 - p.2))
                (some (projDist px py p q)) rest
            else
              projBest px py (c + rhypot (q.1 - p.1) (q.2 - p.2)) q bestAlong bestDist rest

/-- `GeoRouteCalculator.project_point_onto_polyline`.  Total: the Python loop
skips zero-length segments and raises nothing; fewer than 2 points yield
the initial `best_dist_along = 0.0`. -/
noncomputable def project_point_onto_polyline (px py : ℝ) : List Pt → ℝ
  | [] => 0
  | p :: rest => projBest px py 0 p 0 none rest

/-! ### Data model (simulation_data.py and the event structures consumed
by simulation_engine.py) -/

/-- A geographic position `{latitude, longitude}` in decimal degrees. -/
structure Pos where
  latitude : ℝ
  longitude : ℝ

/-- A route point `{"position": {...}}` as found in safe/base routes. -/
structure RoutePoint where
  position : Pos

/-- A raw numeric field as consumed by `float(d.get(key, 0))`:
`missing` = key absent (so `float(0)` gives 0), `num v` = parses to `v`,
`malformed` = `float(...)` raises. -/
inductive RawNum
  | missing
  | num (v : ℝ)
  | malformed

/-- `float(...)` on a raw field; `none` models the raised exception. -/
def parseFloat : RawNum → Option ℝ
  | .missing => some 0
  | .num v => some v
  | .malformed => none

/-- A target ship record `{position, sog, cog}`.  `position = none` models a
missing/falsy position. -/
structure TargetShip where
  position : Option Pos
  sog : RawNum
  cog : RawNum

/-- The own-ship event record (its `position` and `sog` fields are the only
ones the engine reads). -/
structure OwnShipEvent where
  position : Pos
  sog : RawNum

/-- One event of the extracted marzip data. -/
structure Event where
  own_ship_event : Option OwnShipEvent
  safe_route : List RoutePoint
  target_ships : List TargetShip

/-- The `SimulationEngine` state after `__init__`: constructor options plus
the extracted events, base route and setup configuration.  `tcpa_gw` is the
`"TCPA_GW"` entry of `hinas_setup` (`none` = key absent). -/
structure Engine where
  collision_dist : ℝ
  sim_duration_sec : ℕ
  time_step_sec : ℕ
  events : List Event
  base_route : List RoutePoint
  tcpa_gw : Option ℝ

/-- `ResultTag` of simulation_data.py. -/
inductive ResultTag
  | NA_NO_PATH
  | NA_COLLISION
  | NA_SAFE_TARGET
  | COLLISION
  | NO_COLLISION
deriving DecidableEq

/-- `math.radians`. -/
noncomputable def radiansOf (x : ℝ) : ℝ := x * (Real.pi / 180)

/-- Planar projection used throughout `_prepare_routes` / `_prepare_target_info`:
`x = (lon - ref_lon) * 60 * cos_factor`, `y = (lat - ref_lat) * 60`. -/
noncomputable def toPlanar (ref_lat ref_lon cf : ℝ) (p : Pos) : Pt :=
  ((p.longitude - ref_lon) * 60 * cf, (p.latitude - ref_lat) * 60)

/-- The dictionary returned by `_prepare_routes` (xs/ys pairs zipped). -/
structure RouteData where
  ref_lat : ℝ
  ref_lon : ℝ
  cos_factor : ℝ
  safe_pts : List Pt
  total_safe_dist : ℝ
  base_pts : List Pt
  base_total_dist : ℝ
  proj_dist : ℝ

/-- `SimulationEngine._prepare_routes`. -/
noncomputable def prepareRoutes (base_route : List RoutePoint) (start : Pos)
    (safe_route : List RoutePoint) : RouteData :=
  let refp : Pos :=
    match base_route with
    | [] => start
    | rp :: _ => rp.position
  let cf := Real.cos (radiansOf refp.latitude)
  let startPt := toPlanar refp.latitude refp.longitude cf start
  let safePts := safe_route.map fun rp => toPlanar refp.latitude refp.longitude cf rp.position
  let basePts := base_route.map fun rp => toPlanar refp.latitude refp.longitude cf rp.position
  { ref_lat := refp.latitude
    ref_lon := refp.longitude
    cos_factor := cf
    safe_pts := safePts
    total_safe_dist := polyLength safePts
    base_pts := basePts
    base_total_dist := polyLength basePts
    proj_dist :=
      if 1 < safePts.length then project_point_onto_polyline startPt.1 startPt.2 safePts
      else 0 }

/-- One entry of the `tgt_info` list: `(tx0, ty0, sog, arad)`. -/
abbrev TgtInfo : Type := ℝ × ℝ × ℝ × ℝ

/-- `SimulationEngine._prepare_target_info`.  Targets without a position are
skipped; `float` failure on either `sog` or `cog` zeroes both (the
`except` clause assigns `sog, cog = 0.0, 0.0`). -/
noncomputable def prepareTargetInfo (ref_lat ref_lon cf : ℝ) :
    List TargetShip → List TgtInfo
  | [] => []
  | t :: rest =>
      match t.position with
      | none => prepareTargetInfo ref_lat ref_lon cf rest
      | some pos =>
          let sc : ℝ × ℝ :=
            match parseFloat t.sog, parseFloat t.cog with
            | some s, some c => (s, c)
            | _, _ => (0, 0)
          let pt := toPlanar ref_lat ref_lon cf pos
          (pt.1, pt.2, sc.1, radiansOf sc.2) :: prepareTargetInfo ref_lat ref_lon cf rest

/-- The four collision/min-distance fields threaded through the per-tick
target loop. -/
structure TgtAcc where
  min_distance : Option ℝ
  min_distance_time : ℕ
  is_fail : Bool
  fail_time_sec : Option ℕ

/-- The mutable state of `_simulate_dynamics`: the fields of the
`SimulationResult` being filled, the loop-local `safe_path_reached_time`,
and `done` recording that the loop was exited by `break`. -/
structure DynState where
  times : List ℕ := []
  own_positions : List Pt := []
  targets_positions : List (List Pt) := []
  min_distance : Option ℝ := none
  min_distance_time : ℕ := 0
  is_fail : Bool := false
  fail_time_sec : Option ℕ := none
  safe_reached : Option ℕ := none
  done : Bool := false

/-- The min-distance update of the target loop body:
`current_min = res.min_distance if ... else float('inf'); if dd < current_min:
update min_distance and min_distance_time` (the duplicated assignment in the
source is idempotent). -/
noncomputable def accMinUpd (sec : ℕ) (dd : ℝ) (a : TgtAcc) : TgtAcc :=
  match a.min_distance with
  | none => { a with min_distance := some dd, min_distance_time := sec }
  | some m =>
      if dd < m then { a with min_distance := some dd, min_distance_time := sec }
      else a

/-- The collision-flag update of the target loop body:
`if dd < collision_dist and not res.is_fail: is_fail = True;
fail_time_sec = sec`. -/
noncomputable def accFailUpd (collision : ℝ) (sec : ℕ) (dd : ℝ) (a : TgtAcc) : TgtAcc :=
  if dd < collision ∧ a.is_fail = false then
    { a with is_fail := true, fail_time_sec := some sec }
  else a

/-- The inner `for idx, (tx0, ty0, sog_t, arad) in enumerate(tgt_info)` loop
of `_simulate_dynamics`: advances each target, appends its position to its
track (creating the track on first use), updates the running minimum
distance (`none` models the initial `float('inf')`), and flags the first
collision. -/
noncomputable def tgtLoop (collision : ℝ) (sec : ℕ) (ox oy : ℝ) :
    List TgtInfo → List (List Pt) → TgtAcc → List (List Pt) × TgtAcc
  | [], old, a => (old, a)
  | (tx0, ty0, sogt, arad) :: rest, old, a =>
      let dt := sogt * ((sec : ℝ) / 3600)
      let tx := tx0 + dt * Real.sin arad
      let ty := ty0 + dt * Real.cos arad
      let dd := rhypot (ox - tx) (oy - ty)
      let a2 := accFailUpd collision sec dd (accMinUpd sec dd a)
      let r := tgtLoop collision sec ox oy rest old.tail a2
      ((old.headD [] ++ [(tx, ty)]) :: r.1, r.2)

/-- The tail of a loop iteration shared by all non-`break` branches: append
the own-ship position, then run the target loop. -/
noncomputable def stepContinue (collision : ℝ) (sec : ℕ) (o : Pt)
    (tgt : List TgtInfo) (s : DynState) : DynState :=
  let r := tgtLoop collision sec o.1 o.2 tgt s.targets_positions
    ⟨s.min_distance, s.min_distance_time, s.is_fail, s.fail_time_sec⟩
  { s with
    own_positions := s.own_positions ++ [o]
    targets_positions := r.1
    min_distance := r.2.min_distance
    min_distance_time := r.2.min_distance_time
    is_fail := r.2.is_fail
    fail_time_sec := r.2.fail_time_sec }

/-- One iteration of the `for sec in range(...)` loop of
`_simulate_dynamics`.  A state with `done = true` passes through unchanged
(the Python loop was already left by `break`).  `none` models an
exception (`safe_x[-1]` / `base_x[-1]` on an empty list, or a division
error inside `interpolate_along_route`). -/
noncomputable def tickStep (collision tcpa own_sog : ℝ) (rd : RouteData)
    (tgt : List TgtInfo) (s : DynState) (sec : ℕ) : Option DynState :=
  if s.done then some s else
  let s0 := { s with times := s.times ++ [sec] }
  let desired := rd.proj_dist + own_sog * ((sec : ℝ) / 3600)
  if desired ≤ rd.total_safe_dist then
    match interpolate_along_route rd.safe_pts desired with
    | none => none
    | some o => some (stepContinue collision sec o tgt s0)
  else
    match rd.safe_pts.getLast? with
    | none => none
    | some se =>
        let srt := s0.safe_reached.getD sec
        let s1 := { s0 with safe_reached := some srt }
        if (sec : ℝ) - (srt : ℝ) ≥ tcpa * 60 then
          some { s1 with
            own_positions := s1.own_positions ++ [se]
            times := s1.times ++ [sec]
            done := true }
        else
          let remain := desired - rd.total_safe_dist
          if rd.base_total_dist ≠ 0 then
            let base_des := project_point_onto_polyline se.1 se.2 rd.base_pts + remain
            if base_des ≥ rd.base_total_dist then
              match rd.base_pts.getLast? with
              | none => none
              | some be =>
                  some { s1 with
                    own_positions := s1.own_positions ++ [be]
                    times := s1.times ++ [sec]
                    done := true }
            else
              match interpolate_along_route rd.base_pts base_des with
              | none => none
              | some o => some (stepContinue collision sec o tgt s1)
          else some (stepContinue collision sec se tgt s1)

/-- The `for sec in range(0, sim_duration_sec + 1, time_step_sec)` loop. -/
noncomputable def dynLoop (collision tcpa own_sog : ℝ) (rd : RouteData)
    (tgt : List TgtInfo) : List ℕ → DynState → Option DynState
  | [], s => some s
  | sec :: rest, s =>
      match tickStep collision tcpa own_sog rd tgt s sec with
      | none => none
      | some s2 => dynLoop collision tcpa own_sog rd tgt rest s2

/-- The tick sequence `range(0, dur + 1, step)` (for `step > 0`). -/
def ticks (dur step : ℕ) : List ℕ := List.range' 0 (dur / step + 1) step

/-- `SimulationEngine._simulate_dynamics`: run the tick loop from the fresh
`SimulationResult()` state.  The timeout is
`hinas_setup.get("TCPA_GW", 60) * 60` seconds. -/
noncomputable def simulateDynamics (eng : Engine) (own_sog : ℝ) (rd : RouteData)
    (tgt : List TgtInfo) : Option DynState :=
  dynLoop eng.collision_dist (eng.tcpa_gw.getD 60) own_sog rd tgt
    (ticks eng.sim_duration_sec eng.time_step_sec) {}

/-- `SimulationResult` as returned by the controller. -/
structure SimulationResult where
  event_index : ℕ := 0
  has_path : Bool := true
  is_fail : Bool := false
  fail_time_sec : Option ℕ := none
  min_distance : Option ℝ := none
  min_distance_time : ℕ := 0
  times : List ℕ := []
  own_positions : List Pt := []
  targets_positions : List (List Pt) := []
  result_tag : Option ResultTag := none

/-- Package a finished dynamics state as the event's `SimulationResult`
(`dynamics_result.event_index = event_index` plus the tag assignment in
`_simulate_event_with_safe_route`). -/
def ofDyn (i : ℕ) (tag : ResultTag) (d : DynState) : SimulationResult :=
  { event_index := i
    has_path := true
    is_fail := d.is_fail
    fail_time_sec := d.fail_time_sec
    min_distance := d.min_distance
    min_distance_time := d.min_distance_time
    times := d.times
    own_positions := d.own_positions
    targets_positions := d.targets_positions
    result_tag := some tag }

/-- The `NA_NO_PATH` result built by `simulate_event` before any dynamics:
`SimulationResult(event_index=i)` with `has_path = False` and
`result_tag = NA_NO_PATH`; all track/time fields stay empty. -/
def mkNoPath (i : ℕ) : SimulationResult :=
  { event_index := i, has_path := false, result_tag := some ResultTag.NA_NO_PATH }

/-- `SimulationEngine._simulate_event_with_safe_route`. -/
noncomputable def simulate_event_with_safe_route (eng : Engine) (i : ℕ)
    (safe_route : List RoutePoint) : Option SimulationResult :=
  match eng.events.get? i with
  | none => some { event_index := i, has_path := false }
  | some ev =>
      match ev.own_ship_event with
      | none => some { event_index := i, has_path := false }
      | some own_ev =>
          let own_sog := (parseFloat own_ev.sog).getD 0
          let rd := prepareRoutes eng.base_route own_ev.position safe_route
          let ti := prepareTargetInfo rd.ref_lat rd.ref_lon rd.cos_factor ev.target_ships
          (simulateDynamics eng own_sog rd ti).map fun d =>
            ofDyn i (if d.is_fail then ResultTag.COLLISION else ResultTag.NO_COLLISION) d

/-- The tag overwrite of the fallback branch of `simulate_event`:
`sub_res.result_tag = NA_COLLISION if sub_res.is_fail else NA_NO_PATH`. -/
def setNaTag (r : SimulationResult) : SimulationResult :=
  { r with result_tag := some (if r.is_fail then ResultTag.NA_COLLISION else ResultTag.NA_NO_PATH) }

/-- `SimulationEngine.simulate_event` (the class defines it twice with
identical bodies; Python keeps the second).  The `events.get? (i-1) = none`
branch is unreachable for `i > 0` within range. -/
noncomputable def simulate_event (eng : Engine) (i : ℕ) : Option SimulationResult :=
  match eng.events.get? i with
  | none => some (mkNoPath i)
  | some ev =>
      match ev.own_ship_event with
      | none => some (mkNoPath i)
      | some _ =>
          match ev.safe_route with
          | [] =>
              if i = 0 then some (mkNoPath i)
              else
                match eng.events.get? (i - 1) with
                | none => none
                | some prev =>
                    match prev.safe_route with
                    | [] => some (mkNoPath i)
                    | p :: ps =>
                        (simulate_event_with_safe_route eng i (p :: ps)).map setNaTag
          | sr => simulate_event_with_safe_route eng i sr

/-! ### Support definitions for the statements of the claims -/

/-- The pair `(sog, cog)` produced by the guarded
`sog = float(t.get("sog", 0)); cog = float(t.get("cog", 0))`: both values
when both parse, `(0, 0)` when either raises. -/
def parseOrZeroPair (a b : RawNum) : ℝ × ℝ :=
  match parseFloat a, parseFloat b with
  | some s, some c => (s, c)
  | _, _ => (0, 0)

/-- Position of one target at tick `sec`:
`(tx0 + dt*sin(arad), ty0 + dt*cos(arad))` with `dt = sog*(sec/3600)`. -/
noncomputable def tgtPosAt (sec : ℕ) (t : TgtInfo) : Pt :=
  (t.1 + t.2.2.1 * ((sec : ℝ) / 3600) * Real.sin t.2.2.2,
   t.2.1 + t.2.2.1 * ((sec : ℝ) / 3600) * Real.cos t.2.2.2)

/-- The target tracks after one tick: each target's position is appended to
its track (a missing track starts empty); leftover tracks are kept. -/
noncomputable def tracksAfter (sec : ℕ) : List TgtInfo → List (List Pt) → List (List Pt)
  | [], old => old
  | t :: rest, old => (old.headD [] ++ [tgtPosAt sec t]) :: tracksAfter sec rest old.tail

/-- Target `t` is within collision range of own position `(ox, oy)` at tick
`sec`. -/
def hitAt (collision : ℝ) (sec : ℕ) (ox oy : ℝ) (t : TgtInfo) : Prop :=
  rhypot (ox - (tgtPosAt sec t).1) (oy - (tgtPosAt sec t).2) < collision

/-- Recorded collision at track index `k` of a run: some target's recorded
position at index `k` is strictly closer than `collision` to the own-ship's
recorded position at index `k`. -/
def collisionAtIdx (collision : ℝ) (s : DynState) (k : ℕ) : Prop :=
  ∃ (o : Pt) (j : ℕ) (tr : List Pt) (tp : Pt),
    s.own_positions[k]? = some o ∧ s.targets_positions[j]? = some tr ∧
    tr[k]? = some tp ∧ rhypot (o.1 - tp.1) (o.2 - tp.2) < collision

/-- Invariant maintained by every iteration of the `_simulate_dynamics`
loop, tying the bookkeeping fields of the running state together. -/
structure RunInv (collision : ℝ) (tgt : List TgtInfo) (s : DynState) : Prop where
  tracks_le : s.targets_positions.length ≤ tgt.length
  tracks_full : s.done = false →
    s.targets_positions.length = tgt.length ∨ s.own_positions.length = 0
  len_run : s.done = false → s.times.length = s.own_positions.length
  len_done : s.done = true →
    s.times.length = s.own_positions.length + 1 ∧ ∃ l t, s.times = l ++ [t, t]
  track_len_run : s.done = false →
    ∀ tr ∈ s.targets_positions, tr.length = s.own_positions.length
  track_len_done : s.done = true →
    ∀ tr ∈ s.targets_positions, tr.length + 1 = s.own_positions.length
  fail_none : s.is_fail = false →
    s.fail_time_sec = none ∧ ∀ k, ¬ collisionAtIdx collision s k
  fail_some : s.is_fail = true →
    ∃ k t, s.times[k]? = some t ∧ s.fail_time_sec = some t ∧
      collisionAtIdx collision s k ∧ ∀ k2, k2 < k → ¬ collisionAtIdx collision s k2

/-! ### Concrete inputs used by witnesses and counterexamples -/

/-- A two-point unit-length safe route on the x-axis. -/
noncomputable def safeW : List Pt := [((0 : ℝ), (0 : ℝ)), ((1 : ℝ), (0 : ℝ))]

/-- Route data with the unit safe route and no base route. -/
noncomputable def rdW : RouteData :=
  { ref_lat := 0, ref_lon := 0, cos_factor := 1, safe_pts := safeW,
    total_safe_dist := 1, base_pts := [], base_total_dist := 0, proj_dist := 0 }

/-- Route data with the unit safe route and a single-point (zero-length)
base route at `(5, 0)`. -/
noncomputable def rdC3 : RouteData :=
  { ref_lat := 0, ref_lon := 0, cos_factor := 1, safe_pts := safeW,
    total_safe_dist := 1, base_pts := [((5 : ℝ), (0 : ℝ))], base_total_dist := 0,
    proj_dist := 0 }

/-- A one-tick engine configuration (`sim_duration_sec = 0`). -/
noncomputable def engW : Engine :=
  { collision_dist := 1, sim_duration_sec := 0, time_step_sec := 5,
    events := [], base_route := [], tcpa_gw := none }

/-- A two-tick engine configuration (`ticks = [0, 5]`). -/
noncomputable def engC3 : Engine :=
  { collision_dist := 1, sim_duration_sec := 5, time_step_sec := 5,
    events := [], base_route := [], tcpa_gw := none }

/-- A three-tick engine whose `TCPA_GW` entry is 1/12 minute = 5 seconds. -/
noncomputable def engC4 : Engine :=
  { collision_dist := 1, sim_duration_sec := 10, time_step_sec := 5,
    events := [], base_route := [], tcpa_gw := some (1 / 12) }

/-- Route data with a one-point safe route (the witness run holds at it). -/
noncomputable def rdW0 : RouteData :=
  { ref_lat := 0, ref_lon := 0, cos_factor := 1, safe_pts := [((0 : ℝ), (0 : ℝ))],
    total_safe_dist := 0, base_pts := [], base_total_dist := 0, proj_dist := 0 }

/-- The state produced by the one-tick witness run of `engW` on `rdW0`. -/
noncomputable def resW : DynState :=
  { times := [0], own_positions := [((0 : ℝ), (0 : ℝ))], targets_positions := [],
    min_distance := none, min_distance_time := 0, is_fail := false,
    fail_time_sec := none, safe_reached := none, done := false }

/-- The state produced by the two-tick run of `engC3` on `rdC3`: the
own-ship holds at the safe route's end, the run does not terminate. -/
noncomputable def resC3 : DynState :=
  { times := [0, 5], own_positions := [((0 : ℝ), (0 : ℝ)), ((1 : ℝ), (0 : ℝ))],
    targets_positions := [], min_distance := none, min_distance_time := 0,
    is_fail := false, fail_time_sec := none, safe_reached := some 5, done := false }

/-- A dynamics state that has already failed (used to instantiate the
monotonicity part of claim C2). -/
def sFail : DynState :=
  { times := [0], own_positions := [((0 : ℝ), (0 : ℝ))], targets_positions := [],
    min_distance := none, min_distance_time := 0, is_fail := true,
    fail_time_sec := some 0, safe_reached := none, done := false }

/-- An own-ship event at the origin with a well-formed zero speed. -/
def ownAtOrigin : OwnShipEvent := { position := ⟨0, 0⟩, sog := RawNum.num 0 }

/-- An event with an own-ship state and an empty safe route. -/
def evNoRoute : Event :=
  { own_ship_event := some ownAtOrigin, safe_route := [], target_ships := [] }

/-- An event with an own-ship state and a one-point safe route. -/
def evWithRoute : Event :=
  { own_ship_event := some ownAtOrigin, safe_route := [⟨⟨0, 0⟩⟩], target_ships := [] }

/-- Engine whose only event has no safe route (claim C1, event 0). -/
noncomputable def engC1a : Engine :=
  { collision_dist := 1, sim_duration_sec := 0, time_step_sec := 5,
    events := [evNoRoute], base_route := [], tcpa_gw := none }

/-- Engine with events `[route, no-route]` (claim C1, fallback hit) . -/
noncomputable def engC1b : Engine :=
  { collision_dist := 1, sim_duration_sec := 0, time_step_sec := 5,
    events := [evWithRoute, evNoRoute], base_route := [], tcpa_gw := none }

/-- Engine with events `[no-route, no-route]` (claim C1, fallback empty). -/
noncomputable def engC1c : Engine :=
  { collision_dist := 1, sim_duration_sec := 0, time_step_sec := 5,
    events := [evNoRoute, evNoRoute], base_route := [], tcpa_gw := none }

/-- The degenerate route whose first segment has zero length. -/
noncomputable def rteDup : List Pt := [((0 : ℝ), (0 : ℝ)), ((0 : ℝ), (0 : ℝ)), ((1 : ℝ), (0 : ℝ))]

/-- Proof predicate: some consecutive segment of the polyline has nonzero
length and carries the query point `(px, py)` at distance zero (the `dist`
of the Python projection loop body vanishes there). -/
def HasZeroSeg (px py : ℝ) : List Pt → Prop
  | p :: q :: rest =>
      (rhypot (q.1 - p.1) (q.2 - p.2) ≠ 0 ∧ projDist px py p q = 0) ∨
        HasZeroSeg px py (q :: rest)
  | _ => False

/-- Proof predicate: `d` is the cumulative position, counted from offset
`c`, of a clamped projection of `(px, py)` at distance zero onto some
nonzero-length segment of the polyline. -/
def ZeroProjAt (px py : ℝ) : ℝ → List Pt → ℝ → Prop
  | c, p :: q :: rest, d =>
      (rhypot (q.1 - p.1) (q.2 - p.2) ≠ 0 ∧ projDist px py p q = 0 ∧
        d = c + projT px py p q * rhypot (q.1 - p.1) (q.2 - p.2)) ∨
        ZeroProjAt px py (c + rhypot (q.1 - p.1) (q.2 - p.2)) (q :: rest) d
  | _, _, _ => False

/-! ## Basic lemmas about `rhypot` -/

theorem rhypot_nonneg (a b : ℝ) : 0 ≤ rhypot a b := Real.sqrt_nonneg _

theorem rhypot_eq_zero_iff {a b : ℝ} : rhypot a b = 0 ↔ a = 0 ∧ b = 0 := by
  unfold rhypot
  constructor
  · intro h
    have h2 : a ^ 2 + b ^ 2 ≤ 0 := Real.sqrt_eq_zero'.mp h
    have ha : a ^ 2 = 0 := le_antisymm (by nlinarith [sq_nonneg b]) (sq_nonneg a)
    have hb : b ^ 2 = 0 := le_antisymm (by nlinarith [sq_nonneg a]) (sq_nonneg b)
    exact ⟨sq_eq_zero_iff.mp ha, sq_eq_zero_iff.mp hb⟩
  · rintro ⟨rfl, rfl⟩
    simp

theorem rhypot_x_zero (a : ℝ) : rhypot a 0 = |a| := by
  unfold rhypot
  rw [show a ^ 2 + 0 ^ 2 = a ^ 2 by ring, Real.sqrt_sq_eq_abs]

theorem rhypot_zero : rhypot 0 0 = 0 := by
  rw [rhypot_x_zero]; simp

theorem rhypot_sq (a b : ℝ) : rhypot a b ^ 2 = a ^ 2 + b ^ 2 :=
  Real.sq_sqrt (by positivity)

/-! ## Lemmas about cumulative distances -/

theorem cumFrom_getLastD (l : List Pt) : ∀ (c : ℝ) (p : Pt),
    (cumFrom c p l).getLastD c = c + (segLens (p :: l)).sum := by
  induction l with
  | nil => intro c p; simp [cumFrom, segLens]
  | cons q rest ih =>
      intro c p
      simp only [cumFrom, List.getLastD_cons, ih, segLens, List.sum_cons]
      ring

theorem segLens_nonneg (pts : List Pt) : ∀ x ∈ segLens pts, 0 ≤ x := by
  induction pts with
  | nil => simp [segLens]
  | cons p rest ih =>
      cases rest with
      | nil => simp [segLens]
      | cons q rest2 =>
          intro x hx
          simp only [segLens, List.mem_cons] at hx
          rcases hx with rfl | hx
          · exact rhypot_nonneg _ _
          · exact ih x (by simpa [segLens] using hx)

theorem polyLength_nonneg (pts : List Pt) : 0 ≤ polyLength pts :=
  List.sum_nonneg (segLens_nonneg pts)

theorem list_sum_zero_of_nonneg {l : List ℝ} (h : ∀ x ∈ l, 0 ≤ x) (hs : l.sum = 0) :
    ∀ x ∈ l, x = 0 := by
  induction l with
  | nil => simp
  | cons a rest ih =>
      have ha : 0 ≤ a := h a (by simp)
      have hrest : 0 ≤ rest.sum := List.sum_nonneg fun x hx => h x (by simp [hx])
      have hsum : a + rest.sum = 0 := by simpa using hs
      have ha0 : a = 0 := by linarith
      have hr0 : rest.sum = 0 := by linarith
      intro x hx
      rcases List.mem_cons.mp hx with rfl | hx
      · exact ha0
      · exact ih (fun y hy => h y (by simp [hy])) hr0 x hx

theorem polyLength_zero_getLastD {p : Pt} {rest : List Pt}
    (h : polyLength (p :: rest) = 0) : (p :: rest).getLastD p = p := by
  induction rest generalizing p with
  | nil => simp
  | cons q rest2 ih =>
      have hall := list_sum_zero_of_nonneg (segLens_nonneg (p :: q :: rest2)) h
      have hpq : rhypot (q.1 - p.1) (q.2 - p.2) = 0 := hall _ (by simp [segLens])
      have hqp : q = p := by
        obtain ⟨h1, h2⟩ := rhypot_eq_zero_iff.mp hpq
        have e1 : q.1 = p.1 := by linarith
        have e2 : q.2 = p.2 := by linarith
        exact Prod.ext e1 e2
      have htail : polyLength (q :: rest2) = 0 := by
        have : (segLens (q :: rest2)).sum = 0 := by
          have := h
          simp only [polyLength, segLens, List.sum_cons] at this ⊢
          rw [hpq] at this
          linarith
        simpa [polyLength] using this
      have := ih (p := q) htail
      subst hqp
      simpa [List.getLastD_cons] using this

theorem interpolate_ge_total (p : Pt) (rest : List Pt) (d : ℝ)
    (h : polyLength (p :: rest) ≤ d) :
    interpolate_along_route (p :: rest) d = some ((p :: rest).getLastD p) := by
  cases rest with
  | nil => rfl
  | cons q rest2 =>
      have hc : d ≥ (cumFrom 0 p (q :: rest2)).getLastD 0 := by
        rw [cumFrom_getLastD, zero_add]; exact h
      simp only [interpolate_along_route]
      rw [if_pos hc]

theorem interpolate_zero_first_seg (p q : Pt) (rest : List Pt)
    (h : rhypot (q.1 - p.1) (q.2 - p.2) ≠ 0) :
    interpolate_along_route (p :: q :: rest) 0 = some p := by
  have hpos : 0 < rhypot (q.1 - p.1) (q.2 - p.2) :=
    lt_of_le_of_ne (rhypot_nonneg _ _) (Ne.symm h)
  have htot : 0 < polyLength (p :: q :: rest) := by
    simp only [polyLength, segLens, List.sum_cons]
    have := List.sum_nonneg (segLens_nonneg (q :: rest))
    linarith
  have hc : ¬ ((0 : ℝ) ≥ (cumFrom 0 p (q :: rest)).getLastD 0) := by
    rw [cumFrom_getLastD, zero_add]
    simp only [ge_iff_le, not_le]
    simpa [polyLength] using htot
  simp only [interpolate_along_route]
  rw [if_neg hc]
  simp only [cumFrom, interpSearch]
  rw [if_pos (by linarith [rhypot_nonneg (q.1 - p.1) (q.2 - p.2)] :
    0 + rhypot (q.1 - p.1) (q.2 - p.2) ≥ 0)]
  rw [if_neg (by simpa using h)]
  simp

theorem interpolate_le_zero_dup_none (p q : Pt) (rest : List Pt) (d : ℝ)
    (hq : rhypot (q.1 - p.1) (q.2 - p.2) = 0) (ht : 0 < polyLength (p :: q :: rest))
    (hd : d ≤ 0) :
    interpolate_along_route (p :: q :: rest) d = none := by
  have hc : ¬ (d ≥ (cumFrom 0 p (q :: rest)).getLastD 0) := by
    rw [cumFrom_getLastD, zero_add]
    simp only [ge_iff_le, not_le]
    have : 0 < (segLens (p :: q :: rest)).sum := by simpa [polyLength] using ht
    linarith
  simp only [interpolate_along_route]
  rw [if_neg hc]
  simp only [cumFrom, interpSearch]
  rw [if_pos (by rw [hq]; linarith : 0 + rhypot (q.1 - p.1) (q.2 - p.2) ≥ d)]
  rw [if_pos (by rw [hq]; ring)]

theorem interpSearch_isSome (lastP : Pt) (d : ℝ) (l : List Pt) :
    ∀ (cs : List ℝ) (pc : ℝ) (pp : Pt), pc < d →
      (interpSearch lastP d pc pp l cs).isSome = true := by
  induction l with
  | nil => intro cs pc pp _; cases cs <;> simp [interpSearch]
  | cons q rest ih =>
      intro cs pc pp hpc
      cases cs with
      | nil => simp [interpSearch]
      | cons c cs2 =>
          simp only [interpSearch]
          by_cases hc : c ≥ d
          · rw [if_pos hc, if_neg (sub_ne_zero.mpr (ne_of_gt (lt_of_lt_of_le hpc hc)))]
            simp
          · rw [if_neg hc]
            exact ih cs2 c q (lt_of_not_ge hc)

theorem interpolate_pos_isSome (pts : List Pt) (d : ℝ) (hne : pts ≠ []) (hd : 0 < d) :
    (interpolate_along_route pts d).isSome = true := by
  match pts with
  | [p] => simp [interpolate_along_route]
  | p :: q :: rest =>
      simp only [interpolate_along_route]
      split
      · simp
      · exact interpSearch_isSome _ d (q :: rest) _ 0 p hd

/-- Definitional one-step equation for `projBest` on a cons cell with no
best distance recorded yet. -/
theorem projBest_cons_none (px py c : ℝ) (pp : Pt) (ba : ℝ) (q : Pt)
    (rest : List Pt) :
    projBest px py c pp ba none (q :: rest) =
      if rhypot (q.1 - pp.1) (q.2 - pp.2) = 0 then
        projBest px py (c + rhypot (q.1 - pp.1) (q.2 - pp.2)) q ba none rest
      else
        projBest px py (c + rhypot (q.1 - pp.1) (q.2 - pp.2)) q
          (c + projT px py pp q * rhypot (q.1 - pp.1) (q.2 - pp.2))
          (some (projDist px py pp q)) rest := rfl

/-- Definitional one-step equation for `projBest` on a cons cell with a
recorded best distance. -/
theorem projBest_cons_some (px py c : ℝ) (pp : Pt) (ba b : ℝ) (q : Pt)
    (rest : List Pt) :
    projBest px py c pp ba (some b) (q :: rest) =
      if rhypot (q.1 - pp.1) (q.2 - pp.2) = 0 then
        projBest px py (c + rhypot (q.1 - pp.1) (q.2 - pp.2)) q ba (some b) rest
      else if projDist px py pp q < b then
        projBest px py (c + rhypot (q.1 - pp.1) (q.2 - pp.2)) q
          (c + projT px py pp q * rhypot (q.1 - pp.1) (q.2 - pp.2))
          (some (projDist px py pp q)) rest
      else
        projBest px py (c + rhypot (q.1 - pp.1) (q.2 - pp.2)) q ba (some b) rest := rfl

/-- A zero-length segment (duplicated point) is skipped by the projection
loop without changing its state. -/
theorem projBest_cons_self (px py c : ℝ) (p : Pt) (ba : ℝ) (bd : Option ℝ)
    (ys : List Pt) :
    projBest px py c p ba bd (p :: ys) = projBest px py c p ba bd ys := by
  cases bd with
  | none =>
      rw [projBest_cons_none, if_pos (by simp [sub_self, rhypot_zero])]
      simp [sub_self, rhypot_zero]
  | some b =>
      rw [projBest_cons_some, if_pos (by simp [sub_self, rhypot_zero])]
      simp [sub_self, rhypot_zero]

theorem projBest_dup_middle (px py : ℝ) (p : Pt) (ys : List Pt) (xs : List Pt) :
    ∀ (c : ℝ) (pp : Pt) (ba : ℝ) (bd : Option ℝ),
      projBest px py c pp ba bd (xs ++ p :: p :: ys) =
        projBest px py c pp ba bd (xs ++ p :: ys) := by
  induction xs with
  | nil =>
      intro c pp ba bd
      cases bd with
      | none =>
          simp only [List.nil_append]
          conv_lhs => rw [projBest_cons_none]
          conv_rhs => rw [projBest_cons_none]
          split_ifs with h1 <;> exact projBest_cons_self ..
      | some b =>
          simp only [List.nil_append]
          conv_lhs => rw [projBest_cons_some]
          conv_rhs => rw [projBest_cons_some]
          split_ifs with h1 h2 <;> exact projBest_cons_self ..
  | cons x xs2 ih =>
      intro c pp ba bd
      cases bd with
      | none =>
          simp only [List.cons_append]
          conv_lhs => rw [projBest_cons_none]
          conv_rhs => rw [projBest_cons_none]
          split_ifs with h1 <;> exact ih ..
      | some b =>
          simp only [List.cons_append]
          conv_lhs => rw [projBest_cons_some]
          conv_rhs => rw [projBest_cons_some]
          split_ifs with h1 h2 <;> exact ih ..

theorem project_dup_middle (px py : ℝ) (xs : List Pt) (p : Pt) (ys : List Pt) :
    project_point_onto_polyline px py (xs ++ p :: p :: ys) =
      project_point_onto_polyline px py (xs ++ p :: ys) := by
  cases xs with
  | nil =>
      simp only [List.nil_append, project_point_onto_polyline]
      exact projBest_cons_self ..
  | cons x xs2 =>
      simp only [List.cons_append, project_point_onto_polyline]
      exact projBest_dup_middle px py p ys xs2 0 x 0 none

/-- Counterexample to claim C5 as stated: on the route
`[(0,0), (0,0), (1,0)]` (zero-length first segment, positive total
length) the query `interpolate_along(route, 0)` raises
`ZeroDivisionError` (modelled as `none`) instead of returning the route's
first point `(0,0)`. -/
theorem interpolation_boundary_counterexample :
    interpolate_along_route rteDup 0 = none ∧
      interpolate_along_route rteDup 0 ≠ some ((0 : ℝ), (0 : ℝ)) := by
  have h : interpolate_along_route rteDup 0 = none := by
    apply interpolate_le_zero_dup_none
    · simp [rhypot_zero]
    · simp only [polyLength, segLens, List.sum_cons, List.sum_nil]
      have h1 : rhypot ((0 : ℝ) - 0) ((0 : ℝ) - 0) = 0 := by simp [rhypot_zero]
      have h2 : rhypot ((1 : ℝ) - 0) ((0 : ℝ) - 0) = 1 := by
        norm_num [rhypot_x_zero]
      rw [h1, h2]; norm_num
    · exact le_refl 0
  exact ⟨h, by simp [h]⟩

/-- Claim C5 (amended): on every non-empty route, interpolation at the
total length and beyond is clamped to the last point; interpolation at 0
returns the first point provided the first segment has nonzero length or
the total length is 0.  On the empty route every query raises
(`none`), and on a route with positive total length whose first segment
has zero length, any query `≤ 0` raises a division error (`none`). -/
theorem interpolation_boundary (p : Pt) (rest : List Pt) :
    interpolate_along_route (p :: rest) (polyLength (p :: rest)) =
        some ((p :: rest).getLastD p) ∧
    (∀ e : ℝ, 0 ≤ e →
      interpolate_along_route (p :: rest) (polyLength (p :: rest) + e) =
        some ((p :: rest).getLastD p)) ∧
    ((∀ q rest2, rest = q :: rest2 → rhypot (q.1 - p.1) (q.2 - p.2) ≠ 0) ∨
        polyLength (p :: rest) = 0 →
      interpolate_along_route (p :: rest) 0 = some p) ∧
    (∀ d : ℝ, interpolate_along_route [] d = none) ∧
    (∀ q rest2, rest = q :: rest2 → rhypot (q.1 - p.1) (q.2 - p.2) = 0 →
      0 < polyLength (p :: rest) → interpolate_along_route (p :: rest) 0 = none) := by
  refine ⟨interpolate_ge_total p rest _ le_rfl, fun e he =>
    interpolate_ge_total p rest _ (by linarith [polyLength_nonneg (p :: rest)]), ?_,
    fun d => rfl, ?_⟩
  · rintro (hfst | htot)
    · cases rest with
      | nil => rfl
      | cons q rest2 => exact interpolate_zero_first_seg p q rest2 (hfst q rest2 rfl)
    · have h1 := interpolate_ge_total p rest 0 (le_of_eq htot)
      rw [h1, polyLength_zero_getLastD htot]
  · rintro q rest2 rfl hq htot
    exact interpolate_le_zero_dup_none p q rest2 0 hq htot le_rfl

/-- Witness for claim C5 on the route `[(0,0), (2,0)]`. -/
theorem interpolation_boundary_witness :
    interpolate_along_route [((0 : ℝ), (0 : ℝ)), ((2 : ℝ), (0 : ℝ))]
        (polyLength [((0 : ℝ), (0 : ℝ)), ((2 : ℝ), (0 : ℝ))] + 1) =
      some (([((0 : ℝ), (0 : ℝ)), ((2 : ℝ), (0 : ℝ))]).getLastD ((0 : ℝ), (0 : ℝ))) ∧
    interpolate_along_route [((0 : ℝ), (0 : ℝ)), ((2 : ℝ), (0 : ℝ))] 0 =
      some ((0 : ℝ), (0 : ℝ)) :=
  ⟨(interpolation_boundary ((0 : ℝ), (0 : ℝ)) [((2 : ℝ), (0 : ℝ))]).2.1 1 (by norm_num),
   (interpolation_boundary ((0 : ℝ), (0 : ℝ)) [((2 : ℝ), (0 : ℝ))]).2.2.1
     (Or.inl (by
        rintro q rest2 h
        injection h with h1 h2
        subst h1
        norm_num [rhypot_x_zero]))⟩

/-- Counterexample to claim C6 as stated: on the 0-point route,
`interpolate_along` evaluates `xs[0]` and raises `IndexError`
(modelled as `none`) instead of returning a point, so interpolate does not
"return the route's single point, never raise" on every 0- or 1-point
route. -/
theorem degenerate_geometry_safety_counterexample :
    interpolate_along_route ([] : List Pt) 1 = none := rfl

/-- Claim C6 (amended): 1-point routes give the single point / 0 and the
0-point route gives 0 for projection, but raises (`none`) for
interpolation; zero-length segments are skipped by projection (inserting a
duplicate point never changes the result), and interpolation is
exception-free for every query distance `> 0`. -/
theorem degenerate_geometry_safety :
    (∀ (p : Pt) (d : ℝ), interpolate_along_route [p] d = some p) ∧
    (∀ (px py : ℝ) (p : Pt), project_point_onto_polyline px py [p] = 0) ∧
    (∀ px py : ℝ, project_point_onto_polyline px py [] = 0) ∧
    (∀ d : ℝ, interpolate_along_route [] d = none) ∧
    (∀ (pts : List Pt) (d : ℝ), pts ≠ [] → 0 < d →
      (interpolate_along_route pts d).isSome = true) ∧
    (∀ (px py : ℝ) (xs : List Pt) (p : Pt) (ys : List Pt),
      project_point_onto_polyline px py (xs ++ p :: p :: ys) =
        project_point_onto_polyline px py (xs ++ p :: ys)) :=
  ⟨fun p d => rfl, fun px py p => rfl, fun px py => rfl, fun d => rfl,
   interpolate_pos_isSome, project_dup_middle⟩

/-- Witness for claim C6. -/
theorem degenerate_geometry_safety_witness :
    (interpolate_along_route [((0 : ℝ), (0 : ℝ)), ((2 : ℝ), (0 : ℝ))] 1).isSome = true ∧
    project_point_onto_polyline 0 0
        ([((3 : ℝ), (0 : ℝ))] ++ ((1 : ℝ), (0 : ℝ)) :: ((1 : ℝ), (0 : ℝ)) :: []) =
      project_point_onto_polyline 0 0 ([((3 : ℝ), (0 : ℝ))] ++ ((1 : ℝ), (0 : ℝ)) :: []) :=
  ⟨degenerate_geometry_safety.2.2.2.2.1 _ 1 (by simp) (by norm_num),
   degenerate_geometry_safety.2.2.2.2.2 0 0 [((3 : ℝ), (0 : ℝ))] ((1 : ℝ), (0 : ℝ)) []⟩

/-- Claim C8: for every event with an own-ship start position, the reference
point of the planar frame is the base route's first point when the base
route is non-empty and the own-ship start point otherwise, and
`start_offset` (`proj_dist`) equals the projection of the planar own-ship
start onto the projected safe route when it has 2 or more points, else 0. -/
theorem route_context_construction (base_route : List RoutePoint) (start : Pos)
    (safe_route : List RoutePoint) :
    let rd := prepareRoutes base_route start safe_route
    rd.ref_lat = (base_route.headD ⟨start⟩).position.latitude ∧
    rd.ref_lon = (base_route.headD ⟨start⟩).position.longitude ∧
    rd.safe_pts = safe_route.map (fun rp => toPlanar rd.ref_lat rd.ref_lon rd.cos_factor rp.position) ∧
    (2 ≤ safe_route.length →
      rd.proj_dist = project_point_onto_polyline
        (toPlanar rd.ref_lat rd.ref_lon rd.cos_factor start).1
        (toPlanar rd.ref_lat rd.ref_lon rd.cos_factor start).2 rd.safe_pts) ∧
    (safe_route.length < 2 → rd.proj_dist = 0) := by
  intro rd
  cases base_route with
  | nil =>
      refine ⟨rfl, rfl, rfl, fun h => ?_, fun h => ?_⟩
      · show (prepareRoutes [] start safe_route).proj_dist = _
        simp only [prepareRoutes]
        rw [if_pos (by simpa using h)]
        rfl
      · show (prepareRoutes [] start safe_route).proj_dist = 0
        simp only [prepareRoutes]
        rw [if_neg (by simp only [List.length_map]; omega)]
  | cons rp rest =>
      refine ⟨rfl, rfl, rfl, fun h => ?_, fun h => ?_⟩
      · show (prepareRoutes (rp :: rest) start safe_route).proj_dist = _
        simp only [prepareRoutes]
        rw [if_pos (by simpa using h)]
        rfl
      · show (prepareRoutes (rp :: rest) start safe_route).proj_dist = 0
        simp only [prepareRoutes]
        rw [if_neg (by simp only [List.length_map]; omega)]

/-- Witness for claim C8 at a concrete two-point safe route. -/
theorem route_context_construction_witness :
    (prepareRoutes [] ⟨0, 0⟩ [⟨⟨0, 0⟩⟩, ⟨⟨1, 1⟩⟩]).proj_dist =
      project_point_onto_polyline
        (toPlanar (prepareRoutes [] ⟨0, 0⟩ [⟨⟨0, 0⟩⟩, ⟨⟨1, 1⟩⟩]).ref_lat
          (prepareRoutes [] ⟨0, 0⟩ [⟨⟨0, 0⟩⟩, ⟨⟨1, 1⟩⟩]).ref_lon
          (prepareRoutes [] ⟨0, 0⟩ [⟨⟨0, 0⟩⟩, ⟨⟨1, 1⟩⟩]).cos_factor ⟨0, 0⟩).1
        (toPlanar (prepareRoutes [] ⟨0, 0⟩ [⟨⟨0, 0⟩⟩, ⟨⟨1, 1⟩⟩]).ref_lat
          (prepareRoutes [] ⟨0, 0⟩ [⟨⟨0, 0⟩⟩, ⟨⟨1, 1⟩⟩]).ref_lon
          (prepareRoutes [] ⟨0, 0⟩ [⟨⟨0, 0⟩⟩, ⟨⟨1, 1⟩⟩]).cos_factor ⟨0, 0⟩).2
        (prepareRoutes [] ⟨0, 0⟩ [⟨⟨0, 0⟩⟩, ⟨⟨1, 1⟩⟩]).safe_pts :=
  (route_context_construction [] ⟨0, 0⟩ [⟨⟨0, 0⟩⟩, ⟨⟨1, 1⟩⟩]).2.2.2.1 (by decide)

/-! ## Claim C9: target kinematics extraction -/

/-- Claim C9: targets without a position are excluded from the extracted
kinematics (hence never appear in `target_tracks`); a target with a
position contributes its planar start, its sog/cog parsed with both
defaulting to 0 on parse failure (no exception escapes), course in
radians. -/
theorem target_kinematics_extraction (ref_lat ref_lon cf : ℝ) (tgts : List TargetShip) :
    prepareTargetInfo ref_lat ref_lon cf tgts =
      tgts.filterMap (fun t => t.position.map (fun pos =>
        ((toPlanar ref_lat ref_lon cf pos).1, (toPlanar ref_lat ref_lon cf pos).2,
          (parseOrZeroPair t.sog t.cog).1, radiansOf (parseOrZeroPair t.sog t.cog).2))) := by
  induction tgts with
  | nil => rfl
  | cons t rest ih =>
      cases hp : t.position with
      | none => simp [prepareTargetInfo, hp, List.filterMap_cons, ih]
      | some pos =>
          simp only [prepareTargetInfo, hp, List.filterMap_cons, Option.map_some, ih,
            parseOrZeroPair]
          rfl

/-! ## Claim C1: controller fallback chain -/

/-- Claim C1: `simulate_event 0` on an event with an own-ship state but an
empty safe route returns the `NA_NO_PATH` result with empty times/tracks
(no dynamics run); for `i > 0` with empty safe route, an empty
`events[i-1].safe_route` gives the same `NA_NO_PATH` result, and a
non-empty one runs `_simulate_event_with_safe_route` on event `i` with the
prior route, overwriting the tag to `NA_COLLISION` iff `is_fail`
(`setNaTag`). -/
theorem controller_fallback_chain (eng : Engine) :
    (∀ ev, eng.events[0]? = some ev → ev.own_ship_event.isSome →
      ev.safe_route = [] → simulate_event eng 0 = some (mkNoPath 0)) ∧
    (∀ i ev prev, 0 < i → eng.events[i]? = some ev → ev.own_ship_event.isSome →
      ev.safe_route = [] → eng.events[i - 1]? = some prev →
      (prev.safe_route = [] → simulate_event eng i = some (mkNoPath i)) ∧
      (prev.safe_route ≠ [] → simulate_event eng i =
        (simulate_event_with_safe_route eng i prev.safe_route).map setNaTag)) := by
  constructor
  · intro ev h0 hown hsr
    obtain ⟨ow, how⟩ := Option.isSome_iff_exists.mp hown
    simp [simulate_event, h0, how, hsr]
  · intro i ev prev hi h0 hown hsr hprev
    obtain ⟨ow, how⟩ := Option.isSome_iff_exists.mp hown
    have hne : i ≠ 0 := Nat.pos_iff_ne_zero.mp hi
    constructor
    · intro hpe
      simp [simulate_event, h0, how, hsr, hprev, hpe, hne]
    · intro hpe
      obtain ⟨p, ps, hps⟩ := List.exists_cons_of_ne_nil hpe
      simp [simulate_event, h0, how, hsr, hprev, hps, hne]

/-- Witness for claim C1: the three branches at concrete engines. -/
theorem controller_fallback_chain_witness :
    simulate_event engC1a 0 = some (mkNoPath 0) ∧
    simulate_event engC1c 1 = some (mkNoPath 1) ∧
    simulate_event engC1b 1 =
      (simulate_event_with_safe_route engC1b 1 evWithRoute.safe_route).map setNaTag :=
  ⟨(controller_fallback_chain engC1a).1 evNoRoute rfl rfl rfl,
   ((controller_fallback_chain engC1c).2 1 evNoRoute evNoRoute (by decide) rfl rfl rfl rfl).1 rfl,
   ((controller_fallback_chain engC1b).2 1 evNoRoute evWithRoute (by decide) rfl rfl rfl rfl).2
     (by simp [evWithRoute])⟩

/-! ## Lemmas about the per-tick target loop -/

theorem tgtLoop_fst (collision : ℝ) (sec : ℕ) (ox oy : ℝ) (tgt : List TgtInfo) :
    ∀ (old : List (List Pt)) (a : TgtAcc),
      (tgtLoop collision sec ox oy tgt old a).1 = tracksAfter sec tgt old := by
  induction tgt with
  | nil => intro old a; rfl
  | cons t rest ih =>
      intro old a
      obtain ⟨tx0, ty0, sogt, arad⟩ := t
      simp only [tgtLoop, tracksAfter, ih]
      rfl

theorem accMinUpd_is_fail (sec : ℕ) (dd : ℝ) (a : TgtAcc) :
    (accMinUpd sec dd a).is_fail = a.is_fail := by
  cases h : a.min_distance with
  | none => simp [accMinUpd, h]
  | some m =>
      simp only [accMinUpd, h]
      split_ifs <;> rfl

theorem accMinUpd_fail_time (sec : ℕ) (dd : ℝ) (a : TgtAcc) :
    (accMinUpd sec dd a).fail_time_sec = a.fail_time_sec := by
  cases h : a.min_distance with
  | none => simp [accMinUpd, h]
  | some m =>
      simp only [accMinUpd, h]
      split_ifs <;> rfl

theorem accFailUpd_of_fail {a : TgtAcc} (collision : ℝ) (sec : ℕ) (dd : ℝ)
    (h : a.is_fail = true) : accFailUpd collision sec dd a = a := by
  unfold accFailUpd
  rw [if_neg (by simp [h])]

theorem accFailUpd_hit {a : TgtAcc} {collision dd : ℝ} (sec : ℕ)
    (h : a.is_fail = false) (hdd : dd < collision) :
    accFailUpd collision sec dd a = { a with is_fail := true, fail_time_sec := some sec } := by
  unfold accFailUpd
  rw [if_pos ⟨hdd, h⟩]

theorem accFailUpd_miss {collision dd : ℝ} (sec : ℕ) (a : TgtAcc)
    (hdd : ¬ dd < collision) : accFailUpd collision sec dd a = a := by
  unfold accFailUpd
  rw [if_neg (by intro hc; exact hdd hc.1)]

theorem tgtLoop_acc (collision : ℝ) (sec : ℕ) (ox oy : ℝ) (tgt : List TgtInfo) :
    ∀ (old : List (List Pt)) (a : TgtAcc),
      (a.is_fail = true →
        (tgtLoop collision sec ox oy tgt old a).2.is_fail = true ∧
        (tgtLoop collision sec ox oy tgt old a).2.fail_time_sec = a.fail_time_sec) ∧
      (a.is_fail = false →
        ((∃ t ∈ tgt, hitAt collision sec ox oy t) →
          (tgtLoop collision sec ox oy tgt old a).2.is_fail = true ∧
          (tgtLoop collision sec ox oy tgt old a).2.fail_time_sec = some sec) ∧
        (¬ (∃ t ∈ tgt, hitAt collision sec ox oy t) →
          (tgtLoop collision sec ox oy tgt old a).2.is_fail = false ∧
          (tgtLoop collision sec ox oy tgt old a).2.fail_time_sec = a.fail_time_sec)) := by
  induction tgt with
  | nil =>
      intro old a
      refine ⟨fun h => ⟨h, rfl⟩, fun h => ⟨fun hex => ?_, fun _ => ⟨h, rfl⟩⟩⟩
      simp at hex
  | cons t rest ih =>
      intro old a
      obtain ⟨tx0, ty0, sogt, arad⟩ := t
      simp only [tgtLoop]
      set dd := rhypot (ox - (tx0 + sogt * ((sec : ℝ) / 3600) * Real.sin arad))
        (oy - (ty0 + sogt * ((sec : ℝ) / 3600) * Real.cos arad)) with hdef
      have hhit : hitAt collision sec ox oy (tx0, ty0, sogt, arad) ↔ dd < collision := by
        simp [hitAt, tgtPosAt, hdef]
      constructor
      · intro hf
        rw [accFailUpd_of_fail collision sec dd
          (show (accMinUpd sec dd a).is_fail = true by rw [accMinUpd_is_fail]; exact hf)]
        have := (ih old.tail (accMinUpd sec dd a)).1 (by rw [accMinUpd_is_fail]; exact hf)
        exact ⟨this.1, by rw [this.2, accMinUpd_fail_time]⟩
      · intro hf
        by_cases hdd : dd < collision
        · rw [accFailUpd_hit sec (show (accMinUpd sec dd a).is_fail = false by
            rw [accMinUpd_is_fail]; exact hf) hdd]
          have hmono := (ih old.tail
            { accMinUpd sec dd a with is_fail := true, fail_time_sec := some sec }).1 rfl
          refine ⟨fun _ => ⟨hmono.1, hmono.2⟩, fun hne =>
            absurd ⟨(tx0, ty0, sogt, arad), List.mem_cons_self _ _, hhit.mpr hdd⟩ hne⟩
        · rw [accFailUpd_miss sec (accMinUpd sec dd a) hdd]
          have hrec := (ih old.tail (accMinUpd sec dd a)).2 (by rw [accMinUpd_is_fail]; exact hf)
          constructor
          · intro hex
            rcases hex with ⟨t2, ht2, hh2⟩
            rcases List.mem_cons.mp ht2 with rfl | ht3
            · exact absurd (hhit.mp hh2) hdd
            · exact hrec.1 ⟨t2, ht3, hh2⟩
          · intro hne
            have := hrec.2 (fun hx => hne
              (by rcases hx with ⟨t2, ht2, hh2⟩; exact ⟨t2, List.mem_cons_of_mem _ ht2, hh2⟩))
            exact ⟨this.1, by rw [this.2, accMinUpd_fail_time]⟩

/-! ## Lemmas about `tracksAfter` -/

theorem tracksAfter_length (sec : ℕ) (tgt : List TgtInfo) :
    ∀ old : List (List Pt), (tracksAfter sec tgt old).length = max tgt.length old.length := by
  induction tgt with
  | nil => intro old; simp [tracksAfter]
  | cons t rest ih =>
      intro old
      cases old with
      | nil =>
          simp only [tracksAfter, List.length_cons, ih, List.tail_nil, List.length_nil]
          omega
      | cons o os =>
          simp only [tracksAfter, List.length_cons, ih, List.tail_cons]
          omega

theorem tracksAfter_getElem?_some (sec : ℕ) (tgt : List TgtInfo) :
    ∀ (old : List (List Pt)) (j : ℕ) (t : TgtInfo), tgt[j]? = some t →
      (tracksAfter sec tgt old)[j]? = some ((old.getD j []) ++ [tgtPosAt sec t]) := by
  induction tgt with
  | nil => intro old j t h; simp at h
  | cons t0 rest ih =>
      intro old j t h
      cases j with
      | zero =>
          simp only [List.getElem?_cons_zero, Option.some.injEq] at h
          subst h
          cases old <;> simp [tracksAfter, List.getD]
      | succ j2 =>
          simp only [List.getElem?_cons_succ] at h
          cases old with
          | nil => simpa [tracksAfter, List.getD] using ih [] j2 t h
          | cons o os => simpa [tracksAfter, List.getD] using ih os j2 t h

theorem tracksAfter_getElem?_none (sec : ℕ) (tgt : List TgtInfo) :
    ∀ (old : List (List Pt)) (j : ℕ), tgt[j]? = none →
      (tracksAfter sec tgt old)[j]? = old[j]? := by
  induction tgt with
  | nil => intro old j h; rfl
  | cons t0 rest ih =>
      intro old j h
      cases j with
      | zero => simp at h
      | succ j2 =>
          simp only [List.getElem?_cons_succ] at h
          cases old with
          | nil =>
              have he : tracksAfter sec (t0 :: rest) ([] : List (List Pt)) =
                (([] : List (List Pt)).headD [] ++ [tgtPosAt sec t0]) :: tracksAfter sec rest [] := rfl
              rw [he, List.getElem?_cons_succ, ih [] j2 h]
              simp
          | cons o os =>
              have he : tracksAfter sec (t0 :: rest) (o :: os) =
                ((o :: os).headD [] ++ [tgtPosAt sec t0]) :: tracksAfter sec rest os := rfl
              rw [he, List.getElem?_cons_succ, ih os j2 h, List.getElem?_cons_succ]

theorem tracksAfter_mem_length (sec : ℕ) (tgt : List TgtInfo) (old : List (List Pt)) (n : ℕ)
    (hle : old.length ≤ tgt.length) (hfull : old.length = tgt.length ∨ n = 0)
    (hold : ∀ tr ∈ old, tr.length = n) :
    ∀ tr ∈ tracksAfter sec tgt old, tr.length = n + 1 := by
  intro tr htr
  obtain ⟨j, hj, hget⟩ := List.getElem_of_mem htr
  have hjlen : j < tgt.length := by
    have := tracksAfter_length sec tgt old
    rw [this] at hj
    omega
  obtain ⟨t, ht⟩ : ∃ t, tgt[j]? = some t :=
    ⟨tgt[j], List.getElem?_eq_getElem hjlen⟩
  have h1 : (tracksAfter sec tgt old)[j]? = some ((old.getD j []) ++ [tgtPosAt sec t]) :=
    tracksAfter_getElem?_some sec tgt old j t ht
  have h2 : (tracksAfter sec tgt old)[j]? = some tr := by
    rw [List.getElem?_eq_getElem hj, hget]
  rw [h1] at h2
  have htr2 : tr = (old.getD j []) ++ [tgtPosAt sec t] := (Option.some.injEq _ _ ▸ h2).symm
  subst htr2
  rw [List.length_append, List.length_cons, List.length_nil]
  have : (old.getD j []).length = n := by
    by_cases hjo : j < old.length
    · rw [List.getD_eq_getElem?_getD, List.getElem?_eq_getElem hjo]
      exact hold _ (List.getElem_mem hjo)
    · rcases hfull with hfull | hn0
      · omega
      · rw [List.getD_eq_getElem?_getD, List.getElem?_eq_none (by omega)]
        simp [hn0]
  omega

/-! ## Preservation of the run invariant -/

theorem collisionAtIdx_lt {collision : ℝ} {s : DynState} {k : ℕ}
    (h : collisionAtIdx collision s k) : k < s.own_positions.length := by
  obtain ⟨ov, _, _, _, h1, _⟩ := h
  by_contra hcon
  rw [List.getElem?_eq_none (by omega)] at h1
  simp at h1

theorem stepContinue_fields (collision : ℝ) (sec : ℕ) (o : Pt) (tgt : List TgtInfo)
    (s : DynState) :
    (stepContinue collision sec o tgt s).times = s.times ∧
    (stepContinue collision sec o tgt s).own_positions = s.own_positions ++ [o] ∧
    (stepContinue collision sec o tgt s).targets_positions =
      tracksAfter sec tgt s.targets_positions ∧
    (stepContinue collision sec o tgt s).safe_reached = s.safe_reached ∧
    (stepContinue collision sec o tgt s).done = s.done ∧
    (stepContinue collision sec o tgt s).is_fail =
      (tgtLoop collision sec o.1 o.2 tgt s.targets_positions
        ⟨s.min_distance, s.min_distance_time, s.is_fail, s.fail_time_sec⟩).2.is_fail ∧
    (stepContinue collision sec o tgt s).fail_time_sec =
      (tgtLoop collision sec o.1 o.2 tgt s.targets_positions
        ⟨s.min_distance, s.min_distance_time, s.is_fail, s.fail_time_sec⟩).2.fail_time_sec := by
  refine ⟨rfl, rfl, ?_, rfl, rfl, rfl, rfl⟩
  simp only [stepContinue]
  rw [tgtLoop_fst]

theorem runInv_continue {collision : ℝ} {tgt : List TgtInfo} {s S : DynState} (sec : ℕ) (o : Pt)
    (hd : s.done = false)
    (hinv : RunInv collision tgt s)
    (hS_times : S.times = s.times ++ [sec])
    (hS_own : S.own_positions = s.own_positions ++ [o])
    (hS_tr : S.targets_positions = tracksAfter sec tgt s.targets_positions)
    (hS_done : S.done = false)
    (hS_fail : S.is_fail = (tgtLoop collision sec o.1 o.2 tgt s.targets_positions
        ⟨s.min_distance, s.min_distance_time, s.is_fail, s.fail_time_sec⟩).2.is_fail)
    (hS_ft : S.fail_time_sec = (tgtLoop collision sec o.1 o.2 tgt s.targets_positions
        ⟨s.min_distance, s.min_distance_time, s.is_fail, s.fail_time_sec⟩).2.fail_time_sec) :
    RunInv collision tgt S := by
  obtain ⟨htle, htfull, hlenr, hlend, htlr, htld, hfn, hfs⟩ := hinv
  have hlen : s.times.length = s.own_positions.length := hlenr hd
  have htrlen : ∀ tr ∈ s.targets_positions, tr.length = s.own_positions.length := htlr hd
  have htfull2 : s.targets_positions.length = tgt.length ∨ s.own_positions.length = 0 :=
    htfull hd
  have hgdlen : ∀ j, j < tgt.length →
      (s.targets_positions.getD j []).length = s.own_positions.length := by
    intro j hj
    by_cases hjo : j < s.targets_positions.length
    · rw [List.getD_eq_getElem?_getD, List.getElem?_eq_getElem hjo]
      exact htrlen _ (List.getElem_mem hjo)
    · rcases htfull2 with he | hn0
      · omega
      · rw [List.getD_eq_getElem?_getD, List.getElem?_eq_none (by omega)]
        simp [hn0]
  have hcoll_lt : ∀ k, k < s.own_positions.length →
      (collisionAtIdx collision S k ↔ collisionAtIdx collision s k) := by
    intro k hk
    have hfull3 : s.targets_positions.length = tgt.length := by
      rcases htfull2 with he | hn0
      · exact he
      · omega
    unfold collisionAtIdx
    rw [hS_own, hS_tr]
    constructor
    · rintro ⟨ov, j, tr, tp, h1, h2, h3, h4⟩
      rw [List.getElem?_append_left hk] at h1
      by_cases hj : j < tgt.length
      · obtain ⟨t, ht⟩ : ∃ t, tgt[j]? = some t := ⟨tgt[j], List.getElem?_eq_getElem hj⟩
        rw [tracksAfter_getElem?_some sec tgt _ j t ht] at h2
        have htr2 : tr = s.targets_positions.getD j [] ++ [tgtPosAt sec t] := by
          injection h2 with h2a
          exact h2a.symm
        subst htr2
        have hjo : j < s.targets_positions.length := by omega
        have hgd : s.targets_positions.getD j [] = s.targets_positions[j] := by
          rw [List.getD_eq_getElem?_getD, List.getElem?_eq_getElem hjo]
          rfl
        have hlj : (s.targets_positions[j]).length = s.own_positions.length :=
          htrlen _ (List.getElem_mem hjo)
        rw [hgd, List.getElem?_append_left (by omega)] at h3
        exact ⟨ov, j, _, tp, h1, List.getElem?_eq_getElem hjo, h3, h4⟩
      · have hnone : tgt[j]? = none := List.getElem?_eq_none (by omega)
        rw [tracksAfter_getElem?_none sec tgt _ j hnone,
          List.getElem?_eq_none (by omega)] at h2
        exact absurd h2 (by simp)
    · rintro ⟨ov, j, tr, tp, h1, h2, h3, h4⟩
      have hjo : j < s.targets_positions.length := by
        by_contra hcon
        rw [List.getElem?_eq_none (by omega)] at h2
        simp at h2
      have hj : j < tgt.length := by omega
      obtain ⟨t, ht⟩ : ∃ t, tgt[j]? = some t := ⟨tgt[j], List.getElem?_eq_getElem hj⟩
      have hgd : s.targets_positions.getD j [] = tr := by
        rw [List.getD_eq_getElem?_getD, h2]
        rfl
      have hlj : tr.length = s.own_positions.length := htrlen _ (List.getElem?_mem h2)
      refine ⟨ov, j, s.targets_positions.getD j [] ++ [tgtPosAt sec t], tp, ?_, ?_, ?_, h4⟩
      · rw [List.getElem?_append_left hk]
        exact h1
      · exact tracksAfter_getElem?_some sec tgt _ j t ht
      · rw [hgd, List.getElem?_append_left (by omega)]
        exact h3
  have hcoll_n : collisionAtIdx collision S s.own_positions.length ↔
      ∃ t ∈ tgt, hitAt collision sec o.1 o.2 t := by
    unfold collisionAtIdx
    rw [hS_own, hS_tr]
    constructor
    · rintro ⟨ov, j, tr, tp, h1, h2, h3, h4⟩
      rw [List.getElem?_concat_length] at h1
      have hov : ov = o := by injection h1 with h1a; exact h1a.symm
      subst hov
      by_cases hj : j < tgt.length
      · obtain ⟨t, ht⟩ : ∃ t, tgt[j]? = some t := ⟨tgt[j], List.getElem?_eq_getElem hj⟩
        rw [tracksAfter_getElem?_some sec tgt _ j t ht] at h2
        have htr2 : tr = s.targets_positions.getD j [] ++ [tgtPosAt sec t] := by
          injection h2 with h2a
          exact h2a.symm
        subst htr2
        have hcl : (s.targets_positions.getD j [] ++
            [tgtPosAt sec t])[s.own_positions.length]? = some (tgtPosAt sec t) := by
          rw [← hgdlen j hj]
          exact List.getElem?_concat_length _ _
        rw [hcl] at h3
        have htp : tp = tgtPosAt sec t := by injection h3 with h3a; exact h3a.symm
        subst htp
        exact ⟨t, List.getElem?_mem ht, h4⟩
      · have hnone : tgt[j]? = none := List.getElem?_eq_none (by omega)
        rw [tracksAfter_getElem?_none sec tgt _ j hnone,
          List.getElem?_eq_none (by omega)] at h2
        exact absurd h2 (by simp)
    · rintro ⟨t, htmem, hhit⟩
      obtain ⟨j, hj, hjt⟩ := List.getElem_of_mem htmem
      have ht : tgt[j]? = some t := by rw [List.getElem?_eq_getElem hj, hjt]
      refine ⟨o, j, s.targets_positions.getD j [] ++ [tgtPosAt sec t], tgtPosAt sec t,
        List.getElem?_concat_length _ _, tracksAfter_getElem?_some sec tgt _ j t ht, ?_, hhit⟩
      rw [← hgdlen j hj]
      exact List.getElem?_concat_length _ _
  have hcoll_gt : ∀ k, s.own_positions.length < k → ¬ collisionAtIdx collision S k := by
    intro k hk hcoll
    have := collisionAtIdx_lt hcoll
    rw [hS_own, List.length_append, List.length_cons, List.length_nil] at this
    omega
  have hacc := tgtLoop_acc collision sec o.1 o.2 tgt s.targets_positions
    ⟨s.min_distance, s.min_distance_time, s.is_fail, s.fail_time_sec⟩
  refine ⟨?_, ?_, ?_, ?_, ?_, ?_, ?_, ?_⟩
  · rw [hS_tr, tracksAfter_length]
    omega
  · intro _
    left
    rw [hS_tr, tracksAfter_length]
    omega
  · intro _
    rw [hS_times, hS_own, List.length_append, List.length_append]
    simp [hlen]
  · intro hcon
    rw [hS_done] at hcon
    exact absurd hcon (by simp)
  · intro _
    rw [hS_tr, hS_own, List.length_append, List.length_cons, List.length_nil]
    exact tracksAfter_mem_length sec tgt _ _ htle htfull2 htrlen
  · intro hcon
    rw [hS_done] at hcon
    exact absurd hcon (by simp)
  · intro hSf
    rw [hS_fail] at hSf
    cases hsf : s.is_fail with
    | true =>
        have hmono := (hacc.1 (by exact hsf)).1
        rw [hmono] at hSf
        exact absurd hSf (by simp)
    | false =>
        obtain ⟨hftn, hnone⟩ := hfn hsf
        by_cases hex : ∃ t ∈ tgt, hitAt collision sec o.1 o.2 t
        · have hh := ((hacc.2 (by exact hsf)).1 hex).1
          rw [hh] at hSf
          exact absurd hSf (by simp)
        · constructor
          · rw [hS_ft, ((hacc.2 (by exact hsf)).2 hex).2]
            exact hftn
          · intro k
            rcases lt_trichotomy k s.own_positions.length with hk | hk | hk
            · rw [hcoll_lt k hk]
              exact hnone k
            · subst hk
              rw [hcoll_n]
              exact hex
            · exact hcoll_gt k hk
  · intro hSf
    rw [hS_fail] at hSf
    cases hsf : s.is_fail with
    | true =>
        obtain ⟨k, t, hkt, hft, hcoll, hbefore⟩ := hfs hsf
        have hkn : k < s.own_positions.length := collisionAtIdx_lt hcoll
        refine ⟨k, t, ?_, ?_, ?_, ?_⟩
        · rw [hS_times, List.getElem?_append_left (by omega)]
          exact hkt
        · rw [hS_ft, (hacc.1 (by exact hsf)).2]
          exact hft
        · rw [hcoll_lt k hkn]
          exact hcoll
        · intro k2 hk2
          rw [hcoll_lt k2 (by omega)]
          exact hbefore k2 hk2
    | false =>
        obtain ⟨hftn, hnone⟩ := hfn hsf
        by_cases hex : ∃ t ∈ tgt, hitAt collision sec o.1 o.2 t
        · refine ⟨s.own_positions.length, sec, ?_, ?_, ?_, ?_⟩
          · rw [hS_times, ← hlen]
            exact List.getElem?_concat_length _ _
          · rw [hS_ft]
            exact ((hacc.2 (by exact hsf)).1 hex).2
          · rw [hcoll_n]
            exact hex
          · intro k2 hk2
            rw [hcoll_lt k2 hk2]
            exact hnone k2
        · have hh := ((hacc.2 (by exact hsf)).2 hex).1
          rw [hh] at hSf
          exact absurd hSf (by simp)

theorem runInv_break {collision : ℝ} {tgt : List TgtInfo} {s S : DynState} (sec : ℕ) (pt : Pt)
    (hd : s.done = false)
    (hinv : RunInv collision tgt s)
    (hS_times : S.times = (s.times ++ [sec]) ++ [sec])
    (hS_own : S.own_positions = s.own_positions ++ [pt])
    (hS_tr : S.targets_positions = s.targets_positions)
    (hS_done : S.done = true)
    (hS_fail : S.is_fail = s.is_fail)
    (hS_ft : S.fail_time_sec = s.fail_time_sec) :
    RunInv collision tgt S := by
  obtain ⟨htle, htfull, hlenr, hlend, htlr, htld, hfn, hfs⟩ := hinv
  have hlen : s.times.length = s.own_positions.length := hlenr hd
  have htrlen : ∀ tr ∈ s.targets_positions, tr.length = s.own_positions.length := htlr hd
  have hcoll : ∀ k, collisionAtIdx collision S k ↔ collisionAtIdx collision s k := by
    intro k
    unfold collisionAtIdx
    rw [hS_own, hS_tr]
    constructor
    · rintro ⟨ov, j, tr, tp, h1, h2, h3, h4⟩
      have hlj : tr.length = s.own_positions.length := htrlen _ (List.getElem?_mem h2)
      have hk : k < s.own_positions.length := by
        by_contra hcon
        rw [List.getElem?_eq_none (by omega)] at h3
        simp at h3
      rw [List.getElem?_append_left hk] at h1
      exact ⟨ov, j, tr, tp, h1, h2, h3, h4⟩
    · rintro ⟨ov, j, tr, tp, h1, h2, h3, h4⟩
      have hk : k < s.own_positions.length := by
        by_contra hcon
        rw [List.getElem?_eq_none (by omega)] at h1
        simp at h1
      refine ⟨ov, j, tr, tp, ?_, h2, h3, h4⟩
      rw [List.getElem?_append_left hk]
      exact h1
  refine ⟨?_, ?_, ?_, ?_, ?_, ?_, ?_, ?_⟩
  · rw [hS_tr]
    exact htle
  · intro hcon
    rw [hS_done] at hcon
    exact absurd hcon (by simp)
  · intro hcon
    rw [hS_done] at hcon
    exact absurd hcon (by simp)
  · intro _
    constructor
    · rw [hS_times, hS_own]
      simp [hlen]
    · exact ⟨s.times, sec, by rw [hS_times]; simp⟩
  · intro hcon
    rw [hS_done] at hcon
    exact absurd hcon (by simp)
  · intro _ tr htr
    rw [hS_tr] at htr
    rw [hS_own, List.length_append, List.length_cons, List.length_nil]
    have := htrlen tr htr
    omega
  · intro hSf
    rw [hS_fail] at hSf
    obtain ⟨hftn, hnone⟩ := hfn hSf
    exact ⟨by rw [hS_ft]; exact hftn, fun k => by rw [hcoll k]; exact hnone k⟩
  · intro hSf
    rw [hS_fail] at hSf
    obtain ⟨k, t, hkt, hft, hcoll2, hbefore⟩ := hfs hSf
    have hkn : k < s.own_positions.length := collisionAtIdx_lt hcoll2
    refine ⟨k, t, ?_, by rw [hS_ft]; exact hft, by rw [hcoll k]; exact hcoll2,
      fun k2 hk2 => by rw [hcoll k2]; exact hbefore k2 hk2⟩
    rw [hS_times,
      List.getElem?_append_left (by rw [List.length_append]; simp; omega),
      List.getElem?_append_left (by omega)]
    exact hkt

theorem tickStep_done (collision tcpa own_sog : ℝ) (rd : RouteData) (tgt : List TgtInfo)
    (s : DynState) (sec : ℕ) (hd : s.done = true) :
    tickStep collision tcpa own_sog rd tgt s sec = some s := by
  unfold tickStep
  rw [if_pos hd]

theorem dynLoop_cons (collision tcpa own_sog : ℝ) (rd : RouteData) (tgt : List TgtInfo)
    (sec : ℕ) (rest : List ℕ) (s : DynState) :
    dynLoop collision tcpa own_sog rd tgt (sec :: rest) s =
      (tickStep collision tcpa own_sog rd tgt s sec).bind
        (dynLoop collision tcpa own_sog rd tgt rest) := by
  cases h : tickStep collision tcpa own_sog rd tgt s sec <;> simp [dynLoop, h]

theorem tickStep_inv {collision tcpa own_sog : ℝ} {rd : RouteData} {tgt : List TgtInfo}
    {s s2 : DynState} {sec : ℕ}
    (h : tickStep collision tcpa own_sog rd tgt s sec = some s2)
    (hinv : RunInv collision tgt s) : RunInv collision tgt s2 := by
  by_cases hd : s.done = true
  · rw [tickStep_done collision tcpa own_sog rd tgt s sec hd] at h
    obtain rfl : s = s2 := by injection h
    exact hinv
  · have hd2 : s.done = false := by simpa using hd
    unfold tickStep at h
    rw [if_neg (by rw [hd2]; exact Bool.false_ne_true)] at h
    simp only [] at h
    split at h
    · -- on the safe route
      split at h
      · exact absurd h (by simp)
      · obtain rfl : _ = s2 := by injection h
        exact runInv_continue sec _ hd2 hinv rfl rfl
          ((stepContinue_fields _ _ _ _ _).2.2.1) hd2 rfl rfl
    · -- past the safe route
      split at h
      · exact absurd h (by simp)
      · split at h
        · -- timeout: break
          obtain rfl : _ = s2 := by injection h
          exact runInv_break sec _ hd2 hinv rfl rfl rfl rfl rfl rfl
        · split at h
          · -- base route present
            split at h
            · split at h
              · exact absurd h (by simp)
              · obtain rfl : _ = s2 := by injection h
                exact runInv_break sec _ hd2 hinv rfl rfl rfl rfl rfl rfl
            · split at h
              · exact absurd h (by simp)
              · obtain rfl : _ = s2 := by injection h
                exact runInv_continue sec _ hd2 hinv rfl rfl
                  ((stepContinue_fields _ _ _ _ _).2.2.1) hd2 rfl rfl
          · -- hold at the end of the safe route
            obtain rfl : _ = s2 := by injection h
            exact runInv_continue sec _ hd2 hinv rfl rfl
              ((stepContinue_fields _ _ _ _ _).2.2.1) hd2 rfl rfl

theorem runInv_init (collision : ℝ) (tgt : List TgtInfo) : RunInv collision tgt {} := by
  refine ⟨by simp, fun _ => Or.inr rfl, fun _ => rfl, ?_, by simp, ?_, ?_, ?_⟩
  · intro hcon
    exact absurd hcon (by simp [DynState.done])
  · intro hcon
    exact absurd hcon (by simp [DynState.done])
  · intro _
    refine ⟨rfl, fun k => ?_⟩
    rintro ⟨ov, j, tr, tp, h1, _⟩
    simp at h1
  · intro hcon
    exact absurd hcon (by simp [DynState.is_fail])

theorem dynLoop_inv (collision tcpa own_sog : ℝ) (rd : RouteData) (tgt : List TgtInfo) :
    ∀ (L : List ℕ) (s res : DynState),
      dynLoop collision tcpa own_sog rd tgt L s = some res →
      RunInv collision tgt s → RunInv collision tgt res := by
  intro L
  induction L with
  | nil =>
      intro s res h hinv
      obtain rfl : s = res := by injection h
      exact hinv
  | cons sec rest ih =>
      intro s res h hinv
      rw [dynLoop_cons] at h
      cases hts : tickStep collision tcpa own_sog rd tgt s sec with
      | none => rw [hts] at h; exact absurd h (by simp)
      | some s3 =>
          rw [hts] at h
          exact ih s3 res h (tickStep_inv hts hinv)

theorem tickStep_fail_mono {collision tcpa own_sog : ℝ} {rd : RouteData} {tgt : List TgtInfo}
    {s s2 : DynState} {sec : ℕ}
    (h : tickStep collision tcpa own_sog rd tgt s sec = some s2)
    (hf : s.is_fail = true) : s2.is_fail = true ∧ s2.fail_time_sec = s.fail_time_sec := by
  by_cases hd : s.done = true
  · rw [tickStep_done collision tcpa own_sog rd tgt s sec hd] at h
    obtain rfl : s = s2 := by injection h
    exact ⟨hf, rfl⟩
  · have hd2 : s.done = false := by simpa using hd
    have hcont : ∀ (o : Pt) (sr : Option ℕ),
        (stepContinue collision sec o tgt
          { s with times := s.times ++ [sec], safe_reached := sr }).is_fail = true ∧
        (stepContinue collision sec o tgt
          { s with times := s.times ++ [sec], safe_reached := sr }).fail_time_sec =
          s.fail_time_sec := by
      intro o sr
      have := (tgtLoop_acc collision sec o.1 o.2 tgt s.targets_positions
        ⟨s.min_distance, s.min_distance_time, s.is_fail, s.fail_time_sec⟩).1 (by exact hf)
      exact ⟨this.1, this.2⟩
    unfold tickStep at h
    rw [if_neg (by rw [hd2]; exact Bool.false_ne_true)] at h
    simp only [] at h
    split at h
    · split at h
      · exact absurd h (by simp)
      · obtain rfl : _ = s2 := by injection h
        exact hcont _ _
    · split at h
      · exact absurd h (by simp)
      · split at h
        · obtain rfl : _ = s2 := by injection h
          exact ⟨hf, rfl⟩
        · split at h
          · split at h
            · split at h
              · exact absurd h (by simp)
              · obtain rfl : _ = s2 := by injection h
                exact ⟨hf, rfl⟩
            · split at h
              · exact absurd h (by simp)
              · obtain rfl : _ = s2 := by injection h
                exact hcont _ _
          · obtain rfl : _ = s2 := by injection h
            exact hcont _ _

theorem tickStep_shape {collision tcpa own_sog : ℝ} {rd : RouteData} {tgt : List TgtInfo}
    {s s2 : DynState} {sec : ℕ}
    (h : tickStep collision tcpa own_sog rd tgt s sec = some s2) (hd : s.done = false) :
    (s2.done = false ∧ s2.times = s.times ++ [sec] ∧
      ∃ o : Pt, s2.own_positions = s.own_positions ++ [o]) ∨ s2.done = true := by
  unfold tickStep at h
  rw [if_neg (by rw [hd]; exact Bool.false_ne_true)] at h
  simp only [] at h
  split at h
  · split at h
    · exact absurd h (by simp)
    · obtain rfl : _ = s2 := by injection h
      exact Or.inl ⟨hd, rfl, _, rfl⟩
  · split at h
    · exact absurd h (by simp)
    · split at h
      · obtain rfl : _ = s2 := by injection h
        exact Or.inr rfl
      · split at h
        · split at h
          · split at h
            · exact absurd h (by simp)
            · obtain rfl : _ = s2 := by injection h
              exact Or.inr rfl
          · split at h
            · exact absurd h (by simp)
            · obtain rfl : _ = s2 := by injection h
              exact Or.inl ⟨hd, rfl, _, rfl⟩
        · obtain rfl : _ = s2 := by injection h
          exact Or.inl ⟨hd, rfl, _, rfl⟩

theorem dynLoop_times (collision tcpa own_sog : ℝ) (rd : RouteData) (tgt : List TgtInfo) :
    ∀ (L : List ℕ) (s res : DynState),
      dynLoop collision tcpa own_sog rd tgt L s = some res → res.done = false →
      s.done = false ∧ res.times = s.times ++ L := by
  intro L
  induction L with
  | nil =>
      intro s res h hdone
      obtain rfl : s = res := by injection h
      exact ⟨hdone, by simp⟩
  | cons sec rest ih =>
      intro s res h hdone
      rw [dynLoop_cons] at h
      cases hts : tickStep collision tcpa own_sog rd tgt s sec with
      | none => rw [hts] at h; exact absurd h (by simp)
      | some s3 =>
          rw [hts] at h
          obtain ⟨hs3done, htimes⟩ := ih s3 res h hdone
          by_cases hd : s.done = true
          · rw [tickStep_done collision tcpa own_sog rd tgt s sec hd] at hts
            obtain rfl : s = s3 := by injection hts
            rw [hd] at hs3done
            exact absurd hs3done (by simp)
          · have hd2 : s.done = false := by simpa using hd
            rcases tickStep_shape hts hd2 with ⟨_, ht, _⟩ | hdn
            · refine ⟨hd2, ?_⟩
              rw [htimes, ht, List.append_assoc]
              rfl
            · rw [hdn] at hs3done
              exact absurd hs3done (by simp)

/-! ## Claim C2: collision monotonicity -/

/-- Claim C2: within one dynamics run, once `is_fail` is true it never
reverts and `fail_time_sec` never changes (first conjunct, over any suffix
of the loop); and for a whole run, `fail_time_sec` is exactly the time of
the first recorded tick at which some target's recorded position is
strictly within `collision_dist` of the own-ship's recorded position,
while a run that never fails has `fail_time_sec = none` and no such tick
(second conjunct). -/
theorem collision_monotonicity (eng : Engine) (own_sog : ℝ) (rd : RouteData)
    (tgt : List TgtInfo) :
    (∀ (ticksL : List ℕ) (s res : DynState),
      dynLoop eng.collision_dist (eng.tcpa_gw.getD 60) own_sog rd tgt ticksL s = some res →
      s.is_fail = true → res.is_fail = true ∧ res.fail_time_sec = s.fail_time_sec) ∧
    (∀ res : DynState, simulateDynamics eng own_sog rd tgt = some res →
      (res.is_fail = true → ∃ k t, res.times[k]? = some t ∧ res.fail_time_sec = some t ∧
        collisionAtIdx eng.collision_dist res k ∧
        ∀ k2, k2 < k → ¬ collisionAtIdx eng.collision_dist res k2) ∧
      (res.is_fail = false → res.fail_time_sec = none ∧
        ∀ k, ¬ collisionAtIdx eng.collision_dist res k)) := by
  constructor
  · intro L
    induction L with
    | nil =>
        intro s res h hf
        obtain rfl : s = res := by injection h
        exact ⟨hf, rfl⟩
    | cons sec rest ih =>
        intro s res h hf
        rw [dynLoop_cons] at h
        cases hts : tickStep eng.collision_dist (eng.tcpa_gw.getD 60) own_sog rd tgt s sec with
        | none => rw [hts] at h; exact absurd h (by simp)
        | some s3 =>
            rw [hts] at h
            obtain ⟨h3f, h3t⟩ := tickStep_fail_mono hts hf
            obtain ⟨hrf, hrt⟩ := ih s3 res h h3f
            exact ⟨hrf, by rw [hrt, h3t]⟩
  · intro res h
    have hinv := dynLoop_inv eng.collision_dist (eng.tcpa_gw.getD 60) own_sog rd tgt
      (ticks eng.sim_duration_sec eng.time_step_sec) {} res h (runInv_init _ _)
    exact ⟨hinv.fail_some, hinv.fail_none⟩

/-- Evaluation of the one-tick witness run. -/
theorem simW_eval : simulateDynamics engW 0 rdW0 [] = some resW := by
  have hticks : ticks engW.sim_duration_sec engW.time_step_sec = [0] := rfl
  unfold simulateDynamics
  rw [hticks, dynLoop_cons]
  have h1 : tickStep engW.collision_dist (engW.tcpa_gw.getD 60) 0 rdW0 [] {} 0 = some resW := by
    unfold tickStep
    rw [if_neg (by exact Bool.false_ne_true)]
    simp only [rdW0, engW]
    rw [if_pos (by norm_num)]
    simp [interpolate_along_route, stepContinue, tgtLoop, resW]
  rw [h1]
  rfl

/-- Witness for claim C2: the monotonicity part on an already-failed state
with an empty tick list, and the first-tick part on the one-tick run. -/
theorem collision_monotonicity_witness :
    (sFail.is_fail = true ∧ sFail.fail_time_sec = sFail.fail_time_sec) ∧
    ((resW.is_fail = true → ∃ k t, resW.times[k]? = some t ∧ resW.fail_time_sec = some t ∧
        collisionAtIdx engW.collision_dist resW k ∧
        ∀ k2, k2 < k → ¬ collisionAtIdx engW.collision_dist resW k2) ∧
     (resW.is_fail = false → resW.fail_time_sec = none ∧
        ∀ k, ¬ collisionAtIdx engW.collision_dist resW k)) :=
  ⟨(collision_monotonicity engW 0 rdW0 []).1 [] sFail sFail rfl rfl,
   (collision_monotonicity engW 0 rdW0 []).2 resW simW_eval⟩

/-! ## Claim C10: times/track alignment -/

/-- Claim C10: a run that completes the full configured duration
(`done = false`: the loop was never left by `break`) has as many time
entries as own-track entries, one per tick (`times` is exactly the tick
list); a run that terminates early (end of base route, or hold timeout —
the only two `break` paths) has its terminating tick appended to `times`
twice, so `times` ends in two equal entries and is one longer than the
own track. -/
theorem times_track_alignment (eng : Engine) (own_sog : ℝ) (rd : RouteData)
    (tgt : List TgtInfo) (res : DynState)
    (h : simulateDynamics eng own_sog rd tgt = some res) :
    (res.done = false → res.times.length = res.own_positions.length ∧
      res.times = ticks eng.sim_duration_sec eng.time_step_sec) ∧
    (res.done = true → res.times.length = res.own_positions.length + 1 ∧
      ∃ l t, res.times = l ++ [t, t]) := by
  have hinv := dynLoop_inv eng.collision_dist (eng.tcpa_gw.getD 60) own_sog rd tgt
    (ticks eng.sim_duration_sec eng.time_step_sec) {} res h (runInv_init _ _)
  constructor
  · intro hdone
    refine ⟨hinv.len_run hdone, ?_⟩
    have := dynLoop_times eng.collision_dist (eng.tcpa_gw.getD 60) own_sog rd tgt
      (ticks eng.sim_duration_sec eng.time_step_sec) {} res h hdone
    simpa using this.2
  · intro hdone
    exact hinv.len_done hdone

/-- Witness for claim C10 on the one-tick run. -/
theorem times_track_alignment_witness :
    resW.times.length = resW.own_positions.length ∧
      resW.times = ticks engW.sim_duration_sec engW.time_step_sec :=
  (times_track_alignment engW 0 rdW0 [] resW simW_eval).1 rfl

/-! ## Exact evaluation of single loop iterations -/

theorem tickStep_safe (collision tcpa own_sog : ℝ) (rd : RouteData) (tgt : List TgtInfo)
    (s : DynState) (sec : ℕ) (o : Pt) (hd : s.done = false)
    (hdes : rd.proj_dist + own_sog * ((sec : ℝ) / 3600) ≤ rd.total_safe_dist)
    (ho : interpolate_along_route rd.safe_pts
      (rd.proj_dist + own_sog * ((sec : ℝ) / 3600)) = some o) :
    tickStep collision tcpa own_sog rd tgt s sec =
      some (stepContinue collision sec o tgt { s with times := s.times ++ [sec] }) := by
  unfold tickStep
  rw [if_neg (by rw [hd]; exact Bool.false_ne_true)]
  simp only []
  rw [if_pos hdes, ho]

theorem tickStep_timeout (collision tcpa own_sog : ℝ) (rd : RouteData) (tgt : List TgtInfo)
    (se : Pt) (hse : rd.safe_pts.getLast? = some se) (s : DynState) (sec : ℕ)
    (hd : s.done = false)
    (hdes : ¬ (rd.proj_dist + own_sog * ((sec : ℝ) / 3600) ≤ rd.total_safe_dist))
    (htm : (sec : ℝ) - ((s.safe_reached.getD sec : ℕ) : ℝ) ≥ tcpa * 60) :
    tickStep collision tcpa own_sog rd tgt s sec =
      some
        { s with
          times := (s.times ++ [sec]) ++ [sec]
          own_positions := s.own_positions ++ [se]
          safe_reached := some (s.safe_reached.getD sec)
          done := true } := by
  unfold tickStep
  rw [if_neg (by rw [hd]; exact Bool.false_ne_true)]
  simp only []
  rw [if_neg hdes, hse]
  simp only []
  rw [if_pos htm]

theorem tickStep_hold (collision tcpa own_sog : ℝ) (rd : RouteData) (tgt : List TgtInfo)
    (se : Pt) (hse : rd.safe_pts.getLast? = some se) (hb0 : rd.base_total_dist = 0)
    (s : DynState) (sec : ℕ) (hd : s.done = false)
    (hdes : ¬ (rd.proj_dist + own_sog * ((sec : ℝ) / 3600) ≤ rd.total_safe_dist))
    (htm : ¬ ((sec : ℝ) - ((s.safe_reached.getD sec : ℕ) : ℝ) ≥ tcpa * 60)) :
    tickStep collision tcpa own_sog rd tgt s sec =
      some (stepContinue collision sec se tgt
        { s with
          times := s.times ++ [sec]
          safe_reached := some (s.safe_reached.getD sec) }) := by
  unfold tickStep
  rw [if_neg (by rw [hd]; exact Bool.false_ne_true)]
  simp only []
  rw [if_neg hdes, hse]
  simp only []
  rw [if_neg htm, if_neg (by simp [hb0])]

theorem tickStep_base_end (collision tcpa own_sog : ℝ) (rd : RouteData) (tgt : List TgtInfo)
    (se be : Pt) (hse : rd.safe_pts.getLast? = some se)
    (hbe : rd.base_pts.getLast? = some be) (hb : rd.base_total_dist ≠ 0)
    (s : DynState) (sec : ℕ) (hd : s.done = false)
    (hdes : ¬ (rd.proj_dist + own_sog * ((sec : ℝ) / 3600) ≤ rd.total_safe_dist))
    (htm : ¬ ((sec : ℝ) - ((s.safe_reached.getD sec : ℕ) : ℝ) ≥ tcpa * 60))
    (hfar : project_point_onto_polyline se.1 se.2 rd.base_pts +
      (rd.proj_dist + own_sog * ((sec : ℝ) / 3600) - rd.total_safe_dist) ≥
      rd.base_total_dist) :
    tickStep collision tcpa own_sog rd tgt s sec =
      some
        { s with
          times := (s.times ++ [sec]) ++ [sec]
          own_positions := s.own_positions ++ [be]
          safe_reached := some (s.safe_reached.getD sec)
          done := true } := by
  unfold tickStep
  rw [if_neg (by rw [hd]; exact Bool.false_ne_true)]
  simp only []
  rw [if_neg hdes, hse]
  simp only []
  rw [if_neg htm, if_pos hb, if_pos hfar, hbe]

theorem tickStep_base_interp (collision tcpa own_sog : ℝ) (rd : RouteData)
    (tgt : List TgtInfo) (se o : Pt) (hse : rd.safe_pts.getLast? = some se)
    (hb : rd.base_total_dist ≠ 0) (s : DynState) (sec : ℕ) (hd : s.done = false)
    (hdes : ¬ (rd.proj_dist + own_sog * ((sec : ℝ) / 3600) ≤ rd.total_safe_dist))
    (htm : ¬ ((sec : ℝ) - ((s.safe_reached.getD sec : ℕ) : ℝ) ≥ tcpa * 60))
    (hnear : ¬ (project_point_onto_polyline se.1 se.2 rd.base_pts +
      (rd.proj_dist + own_sog * ((sec : ℝ) / 3600) - rd.total_safe_dist) ≥
      rd.base_total_dist))
    (ho : interpolate_along_route rd.base_pts
      (project_point_onto_polyline se.1 se.2 rd.base_pts +
        (rd.proj_dist + own_sog * ((sec : ℝ) / 3600) - rd.total_safe_dist)) = some o) :
    tickStep collision tcpa own_sog rd tgt s sec =
      some (stepContinue collision sec o tgt
        { s with
          times := s.times ++ [sec]
          safe_reached := some (s.safe_reached.getD sec) }) := by
  unfold tickStep
  rw [if_neg (by rw [hd]; exact Bool.false_ne_true)]
  simp only []
  rw [if_neg hdes, hse]
  simp only []
  rw [if_neg htm, if_pos hb, if_neg hnear, ho]

/-! ## Phase composition lemmas -/

theorem dynLoop_append (collision tcpa own_sog : ℝ) (rd : RouteData) (tgt : List TgtInfo) :
    ∀ (L1 L2 : List ℕ) (s : DynState),
      dynLoop collision tcpa own_sog rd tgt (L1 ++ L2) s =
        (dynLoop collision tcpa own_sog rd tgt L1 s).bind
          (dynLoop collision tcpa own_sog rd tgt L2) := by
  intro L1
  induction L1 with
  | nil => intro L2 s; rfl
  | cons sec rest ih =>
      intro L2 s
      rw [List.cons_append, dynLoop_cons, dynLoop_cons]
      cases h : tickStep collision tcpa own_sog rd tgt s sec with
      | none => rfl
      | some s2 => exact ih L2 s2

theorem dynLoop_of_done (collision tcpa own_sog : ℝ) (rd : RouteData) (tgt : List TgtInfo) :
    ∀ (L : List ℕ) (s : DynState), s.done = true →
      dynLoop collision tcpa own_sog rd tgt L s = some s := by
  intro L
  induction L with
  | nil => intro s _; rfl
  | cons sec rest ih =>
      intro s hd
      rw [dynLoop_cons, tickStep_done collision tcpa own_sog rd tgt s sec hd]
      exact ih s hd

theorem dynLoop_safe_phase (collision tcpa own_sog : ℝ) (rd : RouteData) (tgt : List TgtInfo) :
    ∀ (L : List ℕ) (s : DynState), s.done = false → s.safe_reached = none →
      (∀ t ∈ L, rd.proj_dist + own_sog * ((t : ℝ) / 3600) ≤ rd.total_safe_dist ∧
        (interpolate_along_route rd.safe_pts
          (rd.proj_dist + own_sog * ((t : ℝ) / 3600))).isSome = true) →
      ∃ s3, dynLoop collision tcpa own_sog rd tgt L s = some s3 ∧
        s3.done = false ∧ s3.safe_reached = none := by
  intro L
  induction L with
  | nil => intro s hd hsr _; exact ⟨s, rfl, hd, hsr⟩
  | cons sec rest ih =>
      intro s hd hsr hall
      obtain ⟨hdes, hint⟩ := hall sec (by simp)
      obtain ⟨o, ho⟩ := Option.isSome_iff_exists.mp hint
      rw [dynLoop_cons, tickStep_safe collision tcpa own_sog rd tgt s sec o hd hdes ho]
      exact ih _ (by exact hd) (by exact hsr) (fun t ht => hall t (by simp [ht]))

theorem dynLoop_hold_phase (collision tcpa own_sog : ℝ) (rd : RouteData) (tgt : List TgtInfo)
    (se : Pt) (hse : rd.safe_pts.getLast? = some se) (hb0 : rd.base_total_dist = 0)
    (srt : ℕ) :
    ∀ (L : List ℕ) (s : DynState), s.done = false → s.safe_reached = some srt →
      (∀ t ∈ L, ¬ (rd.proj_dist + own_sog * ((t : ℝ) / 3600) ≤ rd.total_safe_dist) ∧
        ¬ ((t : ℝ) - (srt : ℝ) ≥ tcpa * 60)) →
      ∃ s3, dynLoop collision tcpa own_sog rd tgt L s = some s3 ∧
        s3.done = false ∧ s3.safe_reached = some srt := by
  intro L
  induction L with
  | nil => intro s hd hsr _; exact ⟨s, rfl, hd, hsr⟩
  | cons sec rest ih =>
      intro s hd hsr hall
      obtain ⟨hdes, htm⟩ := hall sec (by simp)
      have htm2 : ¬ ((sec : ℝ) - ((s.safe_reached.getD sec : ℕ) : ℝ) ≥ tcpa * 60) := by
        rw [hsr]
        exact htm
      rw [dynLoop_cons,
        tickStep_hold collision tcpa own_sog rd tgt se hse hb0 s sec hd hdes htm2]
      have hsr2 : (stepContinue collision sec se tgt
          { s with
            times := s.times ++ [sec]
            safe_reached := some (s.safe_reached.getD sec) }).safe_reached = some srt := by
        show some (s.safe_reached.getD sec) = some srt
        rw [hsr]
        rfl
      exact ih _ (by exact hd) hsr2 (fun t ht => hall t (by simp [ht]))

/-! ## Claim C3: phase policy past the safe route's end -/

/-- Counterexample to claim C3 as stated: with the one-point base route
`[(5, 0)]` a base route exists and
`base_projected_offset + remaining >= base_total_length` holds
(`0 + 4 >= 0`), so the claim predicts position = base route's last point
`(5, 0)` and termination at tick 5; but `_simulate_dynamics` branches on
the truthiness of `base_total_dist` (which is 0.0), holds at the safe
route's last point `(1, 0)` and keeps running. -/
theorem phase_policy_counterexample :
    ∃ res, simulateDynamics engC3 3600 rdC3 [] = some res ∧
      res.own_positions = [((0 : ℝ), (0 : ℝ)), ((1 : ℝ), (0 : ℝ))] ∧
      res.done = false ∧
      res.own_positions.getLast? ≠ some ((5 : ℝ), (0 : ℝ)) := by
  have hticks : ticks engC3.sim_duration_sec engC3.time_step_sec = [0, 5] := rfl
  have hse : rdC3.safe_pts.getLast? = some ((1 : ℝ), (0 : ℝ)) := rfl
  have h0 : tickStep engC3.collision_dist (engC3.tcpa_gw.getD 60) 3600 rdC3 [] {} 0 =
      some (stepContinue engC3.collision_dist 0 ((0 : ℝ), (0 : ℝ)) []
        { ({} : DynState) with times := ([] : List ℕ) ++ [0] }) := by
    apply tickStep_safe
    · rfl
    · show rdC3.proj_dist + 3600 * (((0 : ℕ) : ℝ) / 3600) ≤ rdC3.total_safe_dist
      simp [rdC3]
    · show interpolate_along_route rdC3.safe_pts
        (rdC3.proj_dist + 3600 * (((0 : ℕ) : ℝ) / 3600)) = some ((0 : ℝ), (0 : ℝ))
      have : rdC3.proj_dist + 3600 * (((0 : ℕ) : ℝ) / 3600) = 0 := by
        simp [rdC3]
      rw [this]
      show interpolate_along_route safeW 0 = some ((0 : ℝ), (0 : ℝ))
      unfold safeW
      apply interpolate_zero_first_seg
      rw [show (1 : ℝ) - 0 = 1 by ring, show (0 : ℝ) - 0 = 0 by ring, rhypot_x_zero]
      norm_num
  refine ⟨resC3, ?_, rfl, rfl, by simp [resC3]⟩
  unfold simulateDynamics
  rw [hticks, dynLoop_cons, h0]
  show dynLoop engC3.collision_dist (engC3.tcpa_gw.getD 60) 3600 rdC3 [] [5] _ = some resC3
  set s1 : DynState := stepContinue engC3.collision_dist 0 ((0 : ℝ), (0 : ℝ)) []
    { ({} : DynState) with times := ([] : List ℕ) ++ [0] } with hs1
  have h5 : tickStep engC3.collision_dist (engC3.tcpa_gw.getD 60) 3600 rdC3 [] s1 5 =
      some (stepContinue engC3.collision_dist 5 ((1 : ℝ), (0 : ℝ)) []
        { s1 with
          times := s1.times ++ [5]
          safe_reached := some (s1.safe_reached.getD 5) }) := by
    apply tickStep_hold engC3.collision_dist (engC3.tcpa_gw.getD 60) 3600 rdC3 [] _ hse rfl
    · rfl
    · show ¬ (rdC3.proj_dist + 3600 * (((5 : ℕ) : ℝ) / 3600) ≤ rdC3.total_safe_dist)
      simp [rdC3]
      norm_num
    · show ¬ ((((5 : ℕ) : ℕ) : ℝ) - ((s1.safe_reached.getD 5 : ℕ) : ℝ) ≥
        engC3.tcpa_gw.getD 60 * 60)
      have : s1.safe_reached = none := rfl
      rw [this]
      show ¬ (((5 : ℕ) : ℝ) - ((5 : ℕ) : ℝ) ≥ (60 : ℝ) * 60)
      norm_num
  rw [dynLoop_cons, h5]
  show some _ = some resC3
  rfl

/-- Claim C3 (amended): at a tick past the safe route's end before the
timeout, `_simulate_dynamics` holds at the safe route's last point when
the base route's **total length** is 0 (not merely when no base route
exists), and otherwise follows the base route: if
`base_projected_offset + remaining >= base_total_length` it records the
base route's last point and terminates, else it records
`interpolate_along(base_route, base_projected_offset + remaining)`. -/
theorem phase_policy_past_safe_end (collision tcpa own_sog : ℝ) (rd : RouteData)
    (tgt : List TgtInfo) (s : DynState) (sec : ℕ) (se : Pt)
    (hd : s.done = false)
    (hse : rd.safe_pts.getLast? = some se)
    (hdes : ¬ (rd.proj_dist + own_sog * ((sec : ℝ) / 3600) ≤ rd.total_safe_dist))
    (htm : ¬ ((sec : ℝ) - ((s.safe_reached.getD sec : ℕ) : ℝ) ≥ tcpa * 60)) :
    (rd.base_total_dist = 0 →
      ∃ s2, tickStep collision tcpa own_sog rd tgt s sec = some s2 ∧
        s2.own_positions = s.own_positions ++ [se] ∧ s2.done = false) ∧
    (rd.base_total_dist ≠ 0 →
      (project_point_onto_polyline se.1 se.2 rd.base_pts +
          (rd.proj_dist + own_sog * ((sec : ℝ) / 3600) - rd.total_safe_dist) ≥
          rd.base_total_dist →
        ∀ be, rd.base_pts.getLast? = some be →
          ∃ s2, tickStep collision tcpa own_sog rd tgt s sec = some s2 ∧
            s2.own_positions = s.own_positions ++ [be] ∧ s2.done = true) ∧
      (¬ (project_point_onto_polyline se.1 se.2 rd.base_pts +
          (rd.proj_dist + own_sog * ((sec : ℝ) / 3600) - rd.total_safe_dist) ≥
          rd.base_total_dist) →
        ∀ o, interpolate_along_route rd.base_pts
            (project_point_onto_polyline se.1 se.2 rd.base_pts +
              (rd.proj_dist + own_sog * ((sec : ℝ) / 3600) - rd.total_safe_dist)) = some o →
          ∃ s2, tickStep collision tcpa own_sog rd tgt s sec = some s2 ∧
            s2.own_positions = s.own_positions ++ [o] ∧ s2.done = false)) := by
  refine ⟨fun hb0 => ?_, fun hb => ⟨fun hfar be hbe => ?_, fun hnear o ho => ?_⟩⟩
  · exact ⟨_, tickStep_hold collision tcpa own_sog rd tgt se hse hb0 s sec hd hdes htm,
      rfl, hd⟩
  · exact ⟨_, tickStep_base_end collision tcpa own_sog rd tgt se be hse hbe hb s sec
      hd hdes htm hfar, rfl, rfl⟩
  · exact ⟨_, tickStep_base_interp collision tcpa own_sog rd tgt se o hse hb s sec
      hd hdes htm hnear ho, rfl, hd⟩

/-- Witness for claim C3: the hold branch at a concrete state and tick. -/
theorem phase_policy_past_safe_end_witness :
    ∃ s2, tickStep (1 : ℝ) 60 3600 rdC3 [] {} 5 = some s2 ∧
      s2.own_positions = ({} : DynState).own_positions ++ [((1 : ℝ), (0 : ℝ))] ∧
      s2.done = false :=
  (phase_policy_past_safe_end 1 60 3600 rdC3 [] {} 5 ((1 : ℝ), (0 : ℝ)) rfl rfl
    (by show ¬ (rdC3.proj_dist + 3600 * (((5 : ℕ) : ℝ) / 3600) ≤ rdC3.total_safe_dist)
        simp [rdC3]; norm_num)
    (by show ¬ ((((5 : ℕ) : ℕ) : ℝ) - ((((none : Option ℕ).getD 5 : ℕ) : ℕ) : ℝ) ≥ 60 * 60)
        norm_num)).1 rfl

/-! ## Claim C4: hold-timeout termination -/

theorem range'_split (s a b step : ℕ) :
    List.range' s (a + b) step = List.range' s a step ++ List.range' (s + step * a) b step := by
  rw [List.range'_append, Nat.add_comm b a]

/-- Evaluation of `interpolate_along_route` on the witness route at 0. -/
theorem interp_safeW_zero : interpolate_along_route safeW 0 = some ((0 : ℝ), (0 : ℝ)) := by
  unfold safeW
  apply interpolate_zero_first_seg
  rw [show (1 : ℝ) - 0 = 1 by ring, show (0 : ℝ) - 0 = 0 by ring, rhypot_x_zero]
  norm_num

/-- Claim C4: the first tick whose desired distance exceeds the safe
route's length is recorded in `safe_path_reached_time`; any tick past the
safe route's end with `sec - safe_reached >= TCPA_GW * 60` (`TCPA_GW`
defaulting to 60 minutes when absent) appends the safe route's last point
and the tick twice and terminates (first conjunct); and when the base
route has zero total length, the speed is nonnegative, the timeout is a
whole number `m` of steps and the duration reaches `srt + m * step`, the
whole run terminates exactly at tick `srt + m * step` holding the safe
route's last point (second conjunct). -/
theorem hold_timeout_termination (eng : Engine) (own_sog : ℝ) (rd : RouteData)
    (tgt : List TgtInfo) (se : Pt) (srt m : ℕ)
    (hse : rd.safe_pts.getLast? = some se)
    (hsog : 0 ≤ own_sog)
    (hb0 : rd.base_total_dist = 0)
    (hstep : 0 < eng.time_step_sec)
    (htcpa : eng.tcpa_gw.getD 60 * 60 = ((m * eng.time_step_sec : ℕ) : ℝ))
    (hmem : srt ∈ ticks eng.sim_duration_sec eng.time_step_sec)
    (hfirst : ∀ t ∈ ticks eng.sim_duration_sec eng.time_step_sec, t < srt →
      rd.proj_dist + own_sog * ((t : ℝ) / 3600) ≤ rd.total_safe_dist)
    (hexceed : ¬ (rd.proj_dist + own_sog * ((srt : ℝ) / 3600) ≤ rd.total_safe_dist))
    (hdur : srt + m * eng.time_step_sec ≤ eng.sim_duration_sec)
    (hinterp : ∀ t ∈ ticks eng.sim_duration_sec eng.time_step_sec, t < srt →
      (interpolate_along_route rd.safe_pts
        (rd.proj_dist + own_sog * ((t : ℝ) / 3600))).isSome = true) :
    (∀ (s : DynState) (sec : ℕ), s.done = false →
      ¬ (rd.proj_dist + own_sog * ((sec : ℝ) / 3600) ≤ rd.total_safe_dist) →
      (sec : ℝ) - ((s.safe_reached.getD sec : ℕ) : ℝ) ≥ eng.tcpa_gw.getD 60 * 60 →
      ∃ s2, tickStep eng.collision_dist (eng.tcpa_gw.getD 60) own_sog rd tgt s sec = some s2 ∧
        s2.own_positions = s.own_positions ++ [se] ∧ s2.done = true ∧
        s2.times = (s.times ++ [sec]) ++ [sec]) ∧
    (∃ res, simulateDynamics eng own_sog rd tgt = some res ∧
      res.done = true ∧ res.safe_reached = some srt ∧
      res.times.getLast? = some (srt + m * eng.time_step_sec) ∧
      res.own_positions.getLast? = some se) := by
  constructor
  · intro s sec hd hdes htm
    exact ⟨_, tickStep_timeout eng.collision_dist (eng.tcpa_gw.getD 60) own_sog rd tgt
      se hse s sec hd hdes htm, rfl, rfl, rfl⟩
  set step := eng.time_step_sec with hstepdef
  set N := eng.sim_duration_sec / step + 1 with hNdef
  have hticksdef : ticks eng.sim_duration_sec step = List.range' 0 N step := rfl
  obtain ⟨i, hiN, hisrt⟩ := List.mem_range'.mp (by rw [hticksdef] at hmem; exact hmem)
  have hsrt : srt = step * i := by omega
  have hmono : ∀ t : ℕ, srt ≤ t →
      ¬ (rd.proj_dist + own_sog * ((t : ℝ) / 3600) ≤ rd.total_safe_dist) := by
    intro t ht hc
    apply hexceed
    have h1 : (srt : ℝ) ≤ (t : ℝ) := by exact_mod_cast ht
    have h2 : own_sog * ((srt : ℝ) / 3600) ≤ own_sog * ((t : ℝ) / 3600) := by
      apply mul_le_mul_of_nonneg_left _ hsog
      linarith
    linarith
  have hNm : i + m + 1 ≤ N := by
    have h1 : (i + m) * step ≤ eng.sim_duration_sec := by
      calc (i + m) * step = step * i + m * step := by ring
      _ = srt + m * step := by rw [hsrt]
      _ ≤ eng.sim_duration_sec := hdur
    have h2 := (Nat.le_div_iff_mul_le hstep).mpr h1
    omega
  have hsplit1 : ticks eng.sim_duration_sec step =
      List.range' 0 i step ++ (srt :: List.range' (srt + step) (N - i - 1) step) := by
    obtain ⟨r, hr⟩ : ∃ r, N - i = r + 1 := ⟨N - i - 1, by omega⟩
    have hr2 : N - i - 1 = r := by omega
    have h1 : List.range' 0 N step =
        List.range' 0 i step ++ List.range' (0 + step * i) (N - i) step := by
      rw [← range'_split]
      congr 1
      omega
    rw [hticksdef, hr2, h1, show 0 + step * i = srt by omega, hr, List.range'_succ]
  have hsubA : ∀ t ∈ List.range' 0 i step, t ∈ ticks eng.sim_duration_sec step ∧ t < srt := by
    intro t ht
    obtain ⟨j, hj, hjt⟩ := List.mem_range'.mp ht
    refine ⟨by rw [hsplit1]; exact List.mem_append.mpr (Or.inl ht), ?_⟩
    have := mul_lt_mul_of_pos_left hj hstep
    omega
  obtain ⟨s3, hs3run, hs3d, hs3sr⟩ :=
    dynLoop_safe_phase eng.collision_dist (eng.tcpa_gw.getD 60) own_sog rd tgt
      (List.range' 0 i step) {} rfl rfl
      (fun t ht => ⟨hfirst t (hsubA t ht).1 (hsubA t ht).2,
        hinterp t (hsubA t ht).1 (hsubA t ht).2⟩)
  rcases Nat.eq_zero_or_pos m with hm0 | hmpos
  · -- m = 0: the timeout fires at `srt` itself
    subst hm0
    have htm0 : (srt : ℝ) - ((s3.safe_reached.getD srt : ℕ) : ℝ) ≥
        eng.tcpa_gw.getD 60 * 60 := by
      rw [hs3sr]
      show (srt : ℝ) - ((srt : ℕ) : ℝ) ≥ _
      rw [htcpa]
      simp
    have hT := tickStep_timeout eng.collision_dist (eng.tcpa_gw.getD 60) own_sog rd tgt
      se hse s3 srt hs3d (hmono srt le_rfl) htm0
    have hrun : simulateDynamics eng own_sog rd tgt =
        some
          { s3 with
            times := (s3.times ++ [srt]) ++ [srt]
            own_positions := s3.own_positions ++ [se]
            safe_reached := some (s3.safe_reached.getD srt)
            done := true } := by
      unfold simulateDynamics
      rw [hsplit1, dynLoop_append, hs3run]
      show dynLoop eng.collision_dist (eng.tcpa_gw.getD 60) own_sog rd tgt
        (srt :: List.range' (srt + step) (N - i - 1) step) s3 = some _
      rw [dynLoop_cons, hT]
      exact dynLoop_of_done eng.collision_dist (eng.tcpa_gw.getD 60) own_sog rd tgt _ _ rfl
    refine ⟨_, hrun, rfl, ?_, ?_, ?_⟩
    · show some (s3.safe_reached.getD srt) = some srt
      rw [hs3sr]
      rfl
    · show ((s3.times ++ [srt]) ++ [srt]).getLast? = some (srt + 0 * step)
      rw [List.getLast?_concat]
      simp
    · show (s3.own_positions ++ [se]).getLast? = some se
      rw [List.getLast?_concat]
  · -- m ≥ 1
    obtain ⟨k, rfl⟩ : ∃ k, m = k + 1 := ⟨m - 1, by omega⟩
    have hmulsucc : step * (k + 1) = step * k + step := Nat.mul_succ step k
    have hsuccmul : (k + 1) * step = k * step + step := Nat.succ_mul k step
    have hcomm : step * k = k * step := Nat.mul_comm step k
    have htm1 : ¬ ((srt : ℝ) - ((s3.safe_reached.getD srt : ℕ) : ℝ) ≥
        eng.tcpa_gw.getD 60 * 60) := by
      rw [hs3sr]
      show ¬ ((srt : ℝ) - ((srt : ℕ) : ℝ) ≥ _)
      rw [htcpa]
      have : (0 : ℝ) < (((k + 1) * step : ℕ) : ℝ) := by
        have : 0 < (k + 1) * step := by positivity
        exact_mod_cast this
      simp only [sub_self]
      linarith
    have h1 := tickStep_hold eng.collision_dist (eng.tcpa_gw.getD 60) own_sog rd tgt se hse
      hb0 s3 srt hs3d (hmono srt le_rfl) htm1
    have hs4sr : (stepContinue eng.collision_dist srt se tgt
        { s3 with
          times := s3.times ++ [srt]
          safe_reached := some (s3.safe_reached.getD srt) }).safe_reached = some srt := by
      show some (s3.safe_reached.getD srt) = some srt
      rw [hs3sr]
      rfl
    have hsplit2 : List.range' (srt + step) (N - i - 1) step =
        List.range' (srt + step) k step ++
          ((srt + step * (k + 1)) ::
            List.range' (srt + step * (k + 1) + step) (N - i - k - 2) step) := by
      obtain ⟨r, hr⟩ : ∃ r, N - i - 1 - k = r + 1 := ⟨N - i - k - 2, by omega⟩
      have hr2 : N - i - k - 2 = r := by omega
      have h2 : List.range' (srt + step) (N - i - 1) step =
          List.range' (srt + step) k step ++
            List.range' (srt + step + step * k) (N - i - 1 - k) step := by
        rw [← range'_split]
        congr 1
        omega
      rw [hr2, h2, show srt + step + step * k = srt + step * (k + 1) by ring, hr,
        List.range'_succ]
    have hholdcond : ∀ t ∈ List.range' (srt + step) k step,
        ¬ (rd.proj_dist + own_sog * ((t : ℝ) / 3600) ≤ rd.total_safe_dist) ∧
        ¬ ((t : ℝ) - (srt : ℝ) ≥ eng.tcpa_gw.getD 60 * 60) := by
      intro t ht
      obtain ⟨j, hj, hjt⟩ := List.mem_range'.mp ht
      refine ⟨hmono t (by omega), ?_⟩
      rw [htcpa]
      have hlt : t - srt < (k + 1) * step := by
        have h3 : step * j < step * k := mul_lt_mul_of_pos_left (by omega) hstep
        have h4 : (k + 1) * step = step * k + step := by ring
        omega
      have hts : srt ≤ t := by omega
      have hcast : (t : ℝ) - (srt : ℝ) = ((t - srt : ℕ) : ℝ) := by
        push_cast [hts]
        ring
      rw [hcast]
      simp only [ge_iff_le, not_le]
      exact_mod_cast hlt
    obtain ⟨s5, hs5run, hs5d, hs5sr⟩ :=
      dynLoop_hold_phase eng.collision_dist (eng.tcpa_gw.getD 60) own_sog rd tgt se hse hb0
        srt (List.range' (srt + step) k step) _ (by exact hs3d) hs4sr hholdcond
    have htmT : ((srt + step * (k + 1) : ℕ) : ℝ) -
        ((s5.safe_reached.getD (srt + step * (k + 1)) : ℕ) : ℝ) ≥
        eng.tcpa_gw.getD 60 * 60 := by
      rw [hs5sr]
      show ((srt + step * (k + 1) : ℕ) : ℝ) - ((srt : ℕ) : ℝ) ≥ _
      rw [htcpa]
      have hc : ((k + 1) * step : ℕ) = step * (k + 1) := Nat.mul_comm _ _
      rw [hc]
      push_cast
      linarith
    have hT := tickStep_timeout eng.collision_dist (eng.tcpa_gw.getD 60) own_sog rd tgt
      se hse s5 (srt + step * (k + 1)) hs5d (hmono _ (by omega)) htmT
    have hrun : simulateDynamics eng own_sog rd tgt =
        some
          { s5 with
            times := (s5.times ++ [srt + step * (k + 1)]) ++ [srt + step * (k + 1)]
            own_positions := s5.own_positions ++ [se]
            safe_reached := some (s5.safe_reached.getD (srt + step * (k + 1)))
            done := true } := by
      unfold simulateDynamics
      rw [hsplit1, dynLoop_append, hs3run]
      show dynLoop eng.collision_dist (eng.tcpa_gw.getD 60) own_sog rd tgt
        (srt :: List.range' (srt + step) (N - i - 1) step) s3 = some _
      rw [dynLoop_cons, h1]
      show dynLoop eng.collision_dist (eng.tcpa_gw.getD 60) own_sog rd tgt
        (List.range' (srt + step) (N - i - 1) step) _ = some _
      rw [hsplit2, dynLoop_append, hs5run]
      show dynLoop eng.collision_dist (eng.tcpa_gw.getD 60) own_sog rd tgt
        ((srt + step * (k + 1)) ::
          List.range' (srt + step * (k + 1) + step) (N - i - k - 2) step) s5 = some _
      rw [dynLoop_cons, hT]
      exact dynLoop_of_done eng.collision_dist (eng.tcpa_gw.getD 60) own_sog rd tgt _ _ rfl
    refine ⟨_, hrun, rfl, ?_, ?_, ?_⟩
    · show some (s5.safe_reached.getD (srt + step * (k + 1))) = some srt
      rw [hs5sr]
      rfl
    · show ((s5.times ++ [srt + step * (k + 1)]) ++ [srt + step * (k + 1)]).getLast? =
        some (srt + (k + 1) * step)
      rw [List.getLast?_concat, Nat.mul_comm]
    · show (s5.own_positions ++ [se]).getLast? = some se
      rw [List.getLast?_concat]

/-- Witness for claim C4: with `TCPA_GW = 1/12` minute (5 s), unit safe
route, speed 3600 kn and a 10 s run, the simulation terminates at
`srt + timeout = 10` holding the safe route's end. -/
theorem hold_timeout_termination_witness :
    ∃ res, simulateDynamics engC4 3600 rdW [] = some res ∧
      res.done = true ∧ res.safe_reached = some 5 ∧
      res.times.getLast? = some (5 + 1 * engC4.time_step_sec) ∧
      res.own_positions.getLast? = some ((1 : ℝ), (0 : ℝ)) :=
  (hold_timeout_termination engC4 3600 rdW [] ((1 : ℝ), (0 : ℝ)) 5 1 rfl (by norm_num) rfl
    (by decide)
    (by show ((1 / 12 : ℝ)) * 60 = ((1 * 5 : ℕ) : ℝ); norm_num)
    (by decide)
    (by
      intro t ht htl
      have ht3 : t = 0 ∨ t = 5 ∨ t = 10 := by
        have : ticks engC4.sim_duration_sec engC4.time_step_sec = [0, 5, 10] := rfl
        rw [this] at ht
        simpa using ht
      rcases ht3 with rfl | rfl | rfl
      · show rdW.proj_dist + 3600 * (((0 : ℕ) : ℝ) / 3600) ≤ rdW.total_safe_dist
        simp [rdW]
      · omega
      · omega)
    (by
      show ¬ (rdW.proj_dist + 3600 * (((5 : ℕ) : ℝ) / 3600) ≤ rdW.total_safe_dist)
      simp [rdW]
      norm_num)
    (by decide)
    (by
      intro t ht htl
      have ht3 : t = 0 ∨ t = 5 ∨ t = 10 := by
        have : ticks engC4.sim_duration_sec engC4.time_step_sec = [0, 5, 10] := rfl
        rw [this] at ht
        simpa using ht
      rcases ht3 with rfl | rfl | rfl
      · show (interpolate_along_route rdW.safe_pts
          (rdW.proj_dist + 3600 * (((0 : ℕ) : ℝ) / 3600))).isSome = true
        have he : rdW.proj_dist + 3600 * (((0 : ℕ) : ℝ) / 3600) = 0 := by
          simp [rdW]
        rw [he]
        show (interpolate_along_route safeW 0).isSome = true
        rw [interp_safeW_zero]
        rfl
      · omega
      · omega)).2

/-! ## Round trip (claim C7): projection followed by interpolation -/

theorem projT_nonneg (px py : ℝ) (p q : Pt) : 0 ≤ projT px py p q :=
  le_max_left _ _

theorem projT_le_one (px py : ℝ) (p q : Pt) : projT px py p q ≤ 1 :=
  max_le zero_le_one (min_le_left _ _)

theorem projDist_nonneg (px py : ℝ) (p q : Pt) : 0 ≤ projDist px py p q :=
  rhypot_nonneg _ _

theorem projDist_self_left (p q : Pt) : projDist p.1 p.2 p q = 0 := by
  have ht : projT p.1 p.2 p q = 0 := by
    unfold projT
    norm_num
  unfold projDist
  rw [ht]
  rw [show p.1 - (p.1 + 0 * (q.1 - p.1)) = 0 by ring,
    show p.2 - (p.2 + 0 * (q.2 - p.2)) = 0 by ring]
  exact rhypot_zero

theorem projT_self_right {p q : Pt} (hL : rhypot (q.1 - p.1) (q.2 - p.2) ≠ 0) :
    projT q.1 q.2 p q = 1 := by
  have hsq : rhypot (q.1 - p.1) (q.2 - p.2) ^ 2 ≠ 0 := pow_ne_zero _ hL
  unfold projT
  rw [show (q.1 - p.1) * (q.1 - p.1) + (q.2 - p.2) * (q.2 - p.2) =
      rhypot (q.1 - p.1) (q.2 - p.2) ^ 2 by rw [rhypot_sq]; ring]
  rw [div_self hsq]
  norm_num

theorem projDist_self_right {p q : Pt} (hL : rhypot (q.1 - p.1) (q.2 - p.2) ≠ 0) :
    projDist q.1 q.2 p q = 0 := by
  unfold projDist
  rw [projT_self_right hL]
  rw [show q.1 - (p.1 + 1 * (q.1 - p.1)) = 0 by ring,
    show q.2 - (p.2 + 1 * (q.2 - p.2)) = 0 by ring]
  exact rhypot_zero

theorem hasZeroSeg_single (px py : ℝ) (p : Pt) : ¬ HasZeroSeg px py [p] :=
  fun h => h

theorem hasZeroSeg_cons (px py : ℝ) (p q : Pt) (rest : List Pt) :
    HasZeroSeg px py (p :: q :: rest) ↔
      (rhypot (q.1 - p.1) (q.2 - p.2) ≠ 0 ∧ projDist px py p q = 0) ∨
        HasZeroSeg px py (q :: rest) := Iff.rfl

theorem zeroProjAt_single (px py c : ℝ) (p : Pt) (d : ℝ) :
    ¬ ZeroProjAt px py c [p] d := fun h => h

theorem zeroProjAt_cons (px py c : ℝ) (p q : Pt) (rest : List Pt) (d : ℝ) :
    ZeroProjAt px py c (p :: q :: rest) d ↔
      (rhypot (q.1 - p.1) (q.2 - p.2) ≠ 0 ∧ projDist px py p q = 0 ∧
        d = c + projT px py p q * rhypot (q.1 - p.1) (q.2 - p.2)) ∨
        ZeroProjAt px py (c + rhypot (q.1 - p.1) (q.2 - p.2)) (q :: rest) d := Iff.rfl

/-- Every vertex of a route without zero-length segments lies at distance
zero from one of the route's (nonzero-length) segments. -/
theorem hasZeroSeg_of_mem (v : Pt) :
    ∀ (rest : List Pt) (p : Pt), rest ≠ [] →
      (∀ L ∈ segLens (p :: rest), L ≠ 0) →
      v ∈ p :: rest → HasZeroSeg v.1 v.2 (p :: rest) := by
  intro rest
  induction rest with
  | nil => intro p h _ _; exact absurd rfl h
  | cons q rest2 ih =>
      intro p _ hnz hv
      have hL : rhypot (q.1 - p.1) (q.2 - p.2) ≠ 0 := hnz _ (by simp [segLens])
      rcases List.mem_cons.mp hv with rfl | hv2
      · exact (hasZeroSeg_cons _ _ _ _ _).mpr (Or.inl ⟨hL, projDist_self_left v q⟩)
      · rcases List.mem_cons.mp hv2 with rfl | hv3
        · exact (hasZeroSeg_cons _ _ _ _ _).mpr (Or.inl ⟨hL, projDist_self_right hL⟩)
        · have hne2 : rest2 ≠ [] := by
            intro h
            rw [h] at hv3
            exact absurd hv3 (List.not_mem_nil v)
          have hnz2 : ∀ L ∈ segLens (q :: rest2), L ≠ 0 := by
            intro L hL2
            exact hnz L (by simp [segLens, hL2])
          exact (hasZeroSeg_cons _ _ _ _ _).mpr
            (Or.inr (ih q hne2 hnz2 (List.mem_cons_of_mem q hv3)))

/-- A zero-distance projection position is at least the starting offset. -/
theorem zeroProjAt_ge (px py : ℝ) :
    ∀ (rest : List Pt) (p : Pt) (c d : ℝ), ZeroProjAt px py c (p :: rest) d → c ≤ d := by
  intro rest
  induction rest with
  | nil => intro p c d h; exact absurd h (zeroProjAt_single px py c p d)
  | cons q rest2 ih =>
      intro p c d h
      rcases (zeroProjAt_cons px py c p q rest2 d).mp h with ⟨_, _, hd⟩ | htail
      · have h1 : 0 ≤ projT px py p q * rhypot (q.1 - p.1) (q.2 - p.2) :=
          mul_nonneg (projT_nonneg px py p q) (rhypot_nonneg _ _)
        linarith [hd]
      · have h2 := ih q _ d htail
        have h3 : 0 ≤ rhypot (q.1 - p.1) (q.2 - p.2) := rhypot_nonneg _ _
        linarith

/-- A zero-distance projection position is at most the route's total
length (counted from the starting offset). -/
theorem zeroProjAt_le_total (px py : ℝ) :
    ∀ (rest : List Pt) (p : Pt) (c d : ℝ), ZeroProjAt px py c (p :: rest) d →
      d ≤ c + (segLens (p :: rest)).sum := by
  intro rest
  induction rest with
  | nil => intro p c d h; exact absurd h (zeroProjAt_single px py c p d)
  | cons q rest2 ih =>
      intro p c d h
      have hL0 : 0 ≤ rhypot (q.1 - p.1) (q.2 - p.2) := rhypot_nonneg _ _
      have hS0 : 0 ≤ (segLens (q :: rest2)).sum := List.sum_nonneg (segLens_nonneg _)
      have hsum : (segLens (p :: q :: rest2)).sum =
          rhypot (q.1 - p.1) (q.2 - p.2) + (segLens (q :: rest2)).sum := by
        simp [segLens]
      rcases (zeroProjAt_cons px py c p q rest2 d).mp h with ⟨_, _, hd⟩ | htail
      · have ht1 : projT px py p q ≤ 1 := projT_le_one px py p q
        have htL : projT px py p q * rhypot (q.1 - p.1) (q.2 - p.2) ≤
            rhypot (q.1 - p.1) (q.2 - p.2) := by nlinarith
        rw [hsum]
        linarith [hd]
      · have h2 := ih q _ d htail
        rw [hsum]
        linarith

/-- If a zero-distance projection position equals the starting offset, the
query point is the first vertex. -/
theorem zeroProjAt_eq_start (px py : ℝ) (rest : List Pt) (p : Pt) (c d : ℝ)
    (hnz : ∀ L ∈ segLens (p :: rest), L ≠ 0)
    (h : ZeroProjAt px py c (p :: rest) d) (hle : d ≤ c) :
    px = p.1 ∧ py = p.2 := by
  cases rest with
  | nil => exact absurd h (zeroProjAt_single px py c p d)
  | cons q rest2 =>
      have hL : rhypot (q.1 - p.1) (q.2 - p.2) ≠ 0 := hnz _ (by simp [segLens])
      have hLpos : 0 < rhypot (q.1 - p.1) (q.2 - p.2) :=
        lt_of_le_of_ne (rhypot_nonneg _ _) (Ne.symm hL)
      rcases (zeroProjAt_cons px py c p q rest2 d).mp h with ⟨_, hD, hd⟩ | htail
      · have ht0 : 0 ≤ projT px py p q := projT_nonneg px py p q
        have hprod : projT px py p q * rhypot (q.1 - p.1) (q.2 - p.2) ≤ 0 := by
          linarith [hd]
        have hprod0 : projT px py p q * rhypot (q.1 - p.1) (q.2 - p.2) = 0 :=
          le_antisymm hprod (mul_nonneg ht0 (le_of_lt hLpos))
        have ht : projT px py p q = 0 := by
          rcases mul_eq_zero.mp hprod0 with h1 | h1
          · exact h1
          · exact absurd h1 hL
        unfold projDist at hD
        rw [ht] at hD
        obtain ⟨e1, e2⟩ := rhypot_eq_zero_iff.mp hD
        rw [zero_mul, add_zero] at e1 e2
        constructor
        · linarith
        · linarith
      · have := zeroProjAt_ge px py rest2 q _ d htail
        linarith

/-- If a zero-distance projection position reaches the route's total
length, the query point is the last vertex. -/
theorem zeroProjAt_eq_total (px py : ℝ) :
    ∀ (rest : List Pt) (p : Pt) (c d : ℝ),
      (∀ L ∈ segLens (p :: rest), L ≠ 0) →
      ZeroProjAt px py c (p :: rest) d →
      c + (segLens (p :: rest)).sum ≤ d →
      px = ((p :: rest).getLastD p).1 ∧ py = ((p :: rest).getLastD p).2 := by
  intro rest
  induction rest with
  | nil => intro p c d _ h _; exact absurd h (zeroProjAt_single px py c p d)
  | cons q rest2 ih =>
      intro p c d hnz h htot
      have hL : rhypot (q.1 - p.1) (q.2 - p.2) ≠ 0 := hnz _ (by simp [segLens])
      have hLpos : 0 < rhypot (q.1 - p.1) (q.2 - p.2) :=
        lt_of_le_of_ne (rhypot_nonneg _ _) (Ne.symm hL)
      have hS0 : 0 ≤ (segLens (q :: rest2)).sum := List.sum_nonneg (segLens_nonneg _)
      have hsum : (segLens (p :: q :: rest2)).sum =
          rhypot (q.1 - p.1) (q.2 - p.2) + (segLens (q :: rest2)).sum := by
        simp [segLens]
      rcases (zeroProjAt_cons px py c p q rest2 d).mp h with ⟨_, hD, hd⟩ | htail
      · have ht1 : projT px py p q ≤ 1 := projT_le_one px py p q
        have htL : projT px py p q * rhypot (q.1 - p.1) (q.2 - p.2) ≤
            rhypot (q.1 - p.1) (q.2 - p.2) := by nlinarith
        have h1 : rhypot (q.1 - p.1) (q.2 - p.2) + (segLens (q :: rest2)).sum ≤
            projT px py p q * rhypot (q.1 - p.1) (q.2 - p.2) := by
          rw [hsum] at htot
          linarith [hd]
        have hSzero : (segLens (q :: rest2)).sum = 0 := by linarith
        have htLe : projT px py p q * rhypot (q.1 - p.1) (q.2 - p.2) =
            rhypot (q.1 - p.1) (q.2 - p.2) := by linarith
        have ht : projT px py p q = 1 :=
          mul_right_cancel₀ hL (by rw [one_mul]; exact htLe)
        have hrest2 : rest2 = [] := by
          cases rest2 with
          | nil => rfl
          | cons r rest3 =>
              have hmem : rhypot (r.1 - q.1) (r.2 - q.2) ∈ segLens (q :: r :: rest3) := by
                simp [segLens]
              have hz2 := list_sum_zero_of_nonneg (segLens_nonneg (q :: r :: rest3))
                hSzero _ hmem
              have hne := hnz (rhypot (r.1 - q.1) (r.2 - q.2))
                (by simp [segLens])
              exact absurd hz2 hne
        subst hrest2
        unfold projDist at hD
        rw [ht] at hD
        obtain ⟨e1, e2⟩ := rhypot_eq_zero_iff.mp hD
        rw [one_mul] at e1 e2
        simp only [List.getLastD_cons]
        constructor
        · show px = q.1
          linarith
        · show py = q.2
          linarith
      · have hnz2 : ∀ L ∈ segLens (q :: rest2), L ≠ 0 := by
          intro L hL2
          exact hnz L (by simp [segLens, hL2])
        have htot2 : (c + rhypot (q.1 - p.1) (q.2 - p.2)) +
            (segLens (q :: rest2)).sum ≤ d := by
          rw [hsum] at htot
          linarith
        have := ih q _ d hnz2 htail htot2
        simpa [List.getLastD_cons] using this

/-- Soundness of the projection loop: if some remaining segment carries
the query point at distance zero (or the best distance so far is already
zero and the recorded position satisfies the target property), then the
returned cumulative position is a zero-distance projection position. -/
theorem projBest_zero (px py : ℝ) (P : ℝ → Prop) :
    ∀ (l : List Pt) (c : ℝ) (p : Pt) (ba : ℝ) (bd : Option ℝ),
      (∀ d, ZeroProjAt px py c (p :: l) d → P d) →
      (∀ b, bd = some b → 0 ≤ b) →
      (bd = some 0 → P ba) →
      (HasZeroSeg px py (p :: l) ∨ bd = some 0) →
      P (projBest px py c p ba bd l) := by
  intro l
  induction l with
  | nil =>
      intro c p ba bd _ _ hba hz
      have hb0 : bd = some 0 := by
        rcases hz with h | h
        · exact absurd h (hasZeroSeg_single px py p)
        · exact h
      exact hba hb0
  | cons q rest ih =>
      intro c p ba bd hmono hin hba hz
      by_cases hL : rhypot (q.1 - p.1) (q.2 - p.2) = 0
      · have hstep : projBest px py c p ba bd (q :: rest) =
            projBest px py (c + rhypot (q.1 - p.1) (q.2 - p.2)) q ba bd rest := by
          cases bd with
          | none => rw [projBest_cons_none, if_pos hL]
          | some b => rw [projBest_cons_some, if_pos hL]
        rw [hstep]
        apply ih
        · intro d hd
          exact hmono d ((zeroProjAt_cons px py c p q rest d).mpr (Or.inr hd))
        · exact hin
        · exact hba
        · rcases hz with hzs | hb0
          · rcases (hasZeroSeg_cons px py p q rest).mp hzs with ⟨hne, _⟩ | htail
            · exact absurd hL hne
            · exact Or.inl htail
          · exact Or.inr hb0
      · cases bd with
        | none =>
            rw [projBest_cons_none, if_neg hL]
            apply ih
            · intro d hd
              exact hmono d ((zeroProjAt_cons px py c p q rest d).mpr (Or.inr hd))
            · intro b hb
              injection hb with h
              exact h ▸ projDist_nonneg px py p q
            · intro hb0
              injection hb0 with h0
              exact hmono _ ((zeroProjAt_cons px py c p q rest _).mpr
                (Or.inl ⟨hL, h0, rfl⟩))
            · rcases hz with hzs | hb0
              · rcases (hasZeroSeg_cons px py p q rest).mp hzs with ⟨_, hD0⟩ | htail
                · exact Or.inr (by rw [hD0])
                · exact Or.inl htail
              · cases hb0
        | some b =>
            rw [projBest_cons_some, if_neg hL]
            by_cases hDb : projDist px py p q < b
            · rw [if_pos hDb]
              apply ih
              · intro d hd
                exact hmono d ((zeroProjAt_cons px py c p q rest d).mpr (Or.inr hd))
              · intro b2 hb2
                injection hb2 with h
                exact h ▸ projDist_nonneg px py p q
              · intro hb0
                injection hb0 with h0
                exact hmono _ ((zeroProjAt_cons px py c p q rest _).mpr
                  (Or.inl ⟨hL, h0, rfl⟩))
              · rcases hz with hzs | hb0
                · rcases (hasZeroSeg_cons px py p q rest).mp hzs with ⟨_, hD0⟩ | htail
                  · exact Or.inr (by rw [hD0])
                  · exact Or.inl htail
                · injection hb0 with h0
                  rw [h0] at hDb
                  exact absurd hDb (not_lt.mpr (projDist_nonneg px py p q))
            · rw [if_neg hDb]
              apply ih
              · intro d hd
                exact hmono d ((zeroProjAt_cons px py c p q rest d).mpr (Or.inr hd))
              · exact hin
              · exact hba
              · rcases hz with hzs | hb0
                · rcases (hasZeroSeg_cons px py p q rest).mp hzs with ⟨_, hD0⟩ | htail
                  · have hble : b ≤ 0 := by
                      rw [hD0] at hDb
                      exact le_of_not_lt hDb
                    have hbge : 0 ≤ b := hin b rfl
                    have : b = 0 := le_antisymm hble hbge
                    exact Or.inr (by rw [this])
                  · exact Or.inl htail
                · exact Or.inr hb0

/-- The search loop of `interpolate_along_route` evaluated at a
zero-distance projection position returns the query point, provided no
segment has zero length. -/
theorem interpSearch_zero_proj (px py : ℝ) :
    ∀ (rest : List Pt) (p : Pt) (c d : ℝ) (lastP : Pt),
      (∀ L ∈ segLens (p :: rest), L ≠ 0) →
      ZeroProjAt px py c (p :: rest) d →
      interpSearch lastP d c p rest (cumFrom c p rest) = some (px, py) := by
  intro rest
  induction rest with
  | nil => intro p c d lastP _ h; exact absurd h (zeroProjAt_single px py c p d)
  | cons q rest2 ih =>
      intro p c d lastP hnz h
      have hL : rhypot (q.1 - p.1) (q.2 - p.2) ≠ 0 := hnz _ (by simp [segLens])
      have hL0 : 0 ≤ rhypot (q.1 - p.1) (q.2 - p.2) := rhypot_nonneg _ _
      have hnz2 : ∀ L ∈ segLens (q :: rest2), L ≠ 0 := by
        intro L hL2
        exact hnz L (by simp [segLens, hL2])
      have hsub : ¬ (c + rhypot (q.1 - p.1) (q.2 - p.2) - c = 0) := by
        rw [show c + rhypot (q.1 - p.1) (q.2 - p.2) - c =
          rhypot (q.1 - p.1) (q.2 - p.2) by ring]
        exact hL
      simp only [cumFrom, interpSearch]
      rcases (zeroProjAt_cons px py c p q rest2 d).mp h with ⟨_, hD, hd⟩ | htail
      · have ht1 : projT px py p q ≤ 1 := projT_le_one px py p q
        have htL : projT px py p q * rhypot (q.1 - p.1) (q.2 - p.2) ≤
            rhypot (q.1 - p.1) (q.2 - p.2) := by nlinarith
        have hge : c + rhypot (q.1 - p.1) (q.2 - p.2) ≥ d := by linarith [hd]
        rw [if_pos hge, if_neg hsub]
        have hratio : (d - c) / (c + rhypot (q.1 - p.1) (q.2 - p.2) - c) =
            projT px py p q := by
          rw [hd, show c + projT px py p q * rhypot (q.1 - p.1) (q.2 - p.2) - c =
              projT px py p q * rhypot (q.1 - p.1) (q.2 - p.2) by ring,
            show c + rhypot (q.1 - p.1) (q.2 - p.2) - c =
              rhypot (q.1 - p.1) (q.2 - p.2) by ring]
          exact mul_div_cancel_right₀ _ hL
        rw [hratio]
        unfold projDist at hD
        obtain ⟨e1, e2⟩ := rhypot_eq_zero_iff.mp hD
        refine congrArg some (Prod.ext ?_ ?_)
        · show p.1 + projT px py p q * (q.1 - p.1) = px
          linarith [e1]
        · show p.2 + projT px py p q * (q.2 - p.2) = py
          linarith [e2]
      · have hge2 : c + rhypot (q.1 - p.1) (q.2 - p.2) ≤ d :=
          zeroProjAt_ge px py rest2 q _ d htail
        by_cases heq : c + rhypot (q.1 - p.1) (q.2 - p.2) ≥ d
        · have hq : px = q.1 ∧ py = q.2 :=
            zeroProjAt_eq_start px py rest2 q _ d hnz2 htail (by linarith)
          rw [if_pos heq, if_neg hsub]
          have hdq : d = c + rhypot (q.1 - p.1) (q.2 - p.2) := le_antisymm heq hge2
          have hratio : (d - c) / (c + rhypot (q.1 - p.1) (q.2 - p.2) - c) = 1 := by
            rw [hdq, show c + rhypot (q.1 - p.1) (q.2 - p.2) - c =
              rhypot (q.1 - p.1) (q.2 - p.2) by ring]
            exact div_self hL
          rw [hratio]
          refine congrArg some (Prod.ext ?_ ?_)
          · show p.1 + 1 * (q.1 - p.1) = px
            linarith [hq.1]
          · show p.2 + 1 * (q.2 - p.2) = py
            linarith [hq.2]
        · rw [if_neg heq]
          exact ih q (c + rhypot (q.1 - p.1) (q.2 - p.2)) d lastP hnz2 htail

/-- `interpolate_along_route` evaluated at a zero-distance projection
position (counted from offset `0`) returns the query point, provided no
segment has zero length. -/
theorem interp_zero_proj (px py : ℝ) (p : Pt) (rest : List Pt) (d : ℝ)
    (hnz : ∀ L ∈ segLens (p :: rest), L ≠ 0)
    (hz : ZeroProjAt px py 0 (p :: rest) d) :
    interpolate_along_route (p :: rest) d = some (px, py) := by
  cases rest with
  | nil => exact absurd hz (zeroProjAt_single px py 0 p d)
  | cons q rest2 =>
      simp only [interpolate_along_route]
      by_cases hge : d ≥ (cumFrom 0 p (q :: rest2)).getLastD 0
      · rw [if_pos hge]
        have htot : 0 + (segLens (p :: q :: rest2)).sum ≤ d := by
          rw [cumFrom_getLastD] at hge
          exact hge
        obtain ⟨e1, e2⟩ := zeroProjAt_eq_total px py (q :: rest2) p 0 d hnz hz htot
        exact congrArg some (Prod.ext e1.symm e2.symm)
      · rw [if_neg hge]
        exact interpSearch_zero_proj px py (q :: rest2) p 0 d _ hnz hz

/-- Counterexample to claim C7 as stated: on the 3-point route
`[(0,0), (0,0), (1,0)]` the vertex `(0,0)` projects to cumulative
position `0`, and interpolating the route at `0` raises
`ZeroDivisionError` (modelled as `none`) instead of returning the
vertex. -/
theorem round_trip_counterexample :
    2 ≤ rteDup.length ∧ ((0 : ℝ), (0 : ℝ)) ∈ rteDup ∧
      interpolate_along_route rteDup
        (project_point_onto_polyline 0 0 rteDup) = none := by
  have hL1 : rhypot ((1 : ℝ) - 0) ((0 : ℝ) - 0) = 1 := by
    rw [show (1 : ℝ) - 0 = 1 by norm_num, show (0 : ℝ) - 0 = 0 by norm_num,
      rhypot_x_zero]
    norm_num
  have hproj : project_point_onto_polyline 0 0 rteDup = 0 := by
    show projBest 0 0 0 ((0 : ℝ), (0 : ℝ)) 0 none
      [((0 : ℝ), (0 : ℝ)), ((1 : ℝ), (0 : ℝ))] = 0
    rw [projBest_cons_self, projBest_cons_none,
      if_neg (show ¬ (rhypot ((1 : ℝ) - 0) ((0 : ℝ) - 0) = 0) by
        rw [hL1]; norm_num)]
    show (0 : ℝ) + projT 0 0 ((0 : ℝ), (0 : ℝ)) ((1 : ℝ), (0 : ℝ)) *
      rhypot ((1 : ℝ) - 0) ((0 : ℝ) - 0) = 0
    have ht : projT 0 0 ((0 : ℝ), (0 : ℝ)) ((1 : ℝ), (0 : ℝ)) = 0 := by
      unfold projT
      norm_num
    rw [ht]
    ring
  have h1 : rhypot (1 : ℝ) (0 : ℝ) = 1 := by
    rw [rhypot_x_zero]
    norm_num
  refine ⟨by simp [rteDup], by simp [rteDup], ?_⟩
  rw [hproj]
  exact interpolate_le_zero_dup_none ((0 : ℝ), (0 : ℝ)) ((0 : ℝ), (0 : ℝ))
    [((1 : ℝ), (0 : ℝ))] 0
    (by norm_num [rhypot_zero])
    (by
      simp only [polyLength, segLens, List.sum_cons, List.sum_nil]
      norm_num [rhypot_zero, h1])
    le_rfl

/-- Claim C7 (amended): for every route with at least two points none of
whose consecutive segments has zero length, interpolating the route at
the cumulative position returned by projecting any of its vertices onto
it returns exactly that vertex.  (As literally stated the claim is
false: on a route whose first two points coincide the round trip at the
duplicated vertex divides by zero; see the counterexample.) -/
theorem round_trip (p : Pt) (rest : List Pt) (v : Pt)
    (hne : rest ≠ [])
    (hnz : ∀ L ∈ segLens (p :: rest), L ≠ 0)
    (hv : v ∈ p :: rest) :
    interpolate_along_route (p :: rest)
      (project_point_onto_polyline v.1 v.2 (p :: rest)) = some v := by
  have hzs : HasZeroSeg v.1 v.2 (p :: rest) := hasZeroSeg_of_mem v rest p hne hnz hv
  have hzp : ZeroProjAt v.1 v.2 0 (p :: rest)
      (project_point_onto_polyline v.1 v.2 (p :: rest)) := by
    show ZeroProjAt v.1 v.2 0 (p :: rest) (projBest v.1 v.2 0 p 0 none rest)
    exact projBest_zero v.1 v.2 (ZeroProjAt v.1 v.2 0 (p :: rest)) rest 0 p 0 none
      (fun _ hd => hd) (fun b hb => by cases hb) (fun hb => by cases hb) (Or.inl hzs)
  have h := interp_zero_proj v.1 v.2 p rest _ hnz hzp
  simpa using h

/-- Witness for claim C7: on the unit route `[(0,0), (1,0)]` the round
trip at the vertex `(1,0)` returns that vertex. -/
theorem round_trip_witness :
    ([((1 : ℝ), (0 : ℝ))] : List Pt) ≠ [] ∧
      ((1 : ℝ), (0 : ℝ)) ∈ [((0 : ℝ), (0 : ℝ)), ((1 : ℝ), (0 : ℝ))] ∧
      interpolate_along_route [((0 : ℝ), (0 : ℝ)), ((1 : ℝ), (0 : ℝ))]
        (project_point_onto_polyline 1 0
          [((0 : ℝ), (0 : ℝ)), ((1 : ℝ), (0 : ℝ))]) = some ((1 : ℝ), (0 : ℝ)) := by
  have hnz : ∀ L ∈ segLens [((0 : ℝ), (0 : ℝ)), ((1 : ℝ), (0 : ℝ))], L ≠ 0 := by
    have h1 : rhypot (1 : ℝ) (0 : ℝ) = 1 := by
      rw [rhypot_x_zero]
      norm_num
    intro L hL
    simp only [segLens, List.mem_cons, List.not_mem_nil, or_false] at hL
    rw [hL]
    norm_num [h1]
  exact ⟨by simp, by simp,
    round_trip ((0 : ℝ), (0 : ℝ)) [((1 : ℝ), (0 : ℝ))] ((1 : ℝ), (0 : ℝ))
      (by simp) hnz (by simp)⟩

end SPG
